import Mathlib

/-!
# AutoWB: the `AutoBalance` filter of `src/src.cxx`

A shallow embedding of the filter's construction check, of its scene-aware
temporal averaging (`AverageIntensityOverTime`), of the gain computation of
`DrawFrame` and of its pixel loop, followed by the properties proved about
them.

The code's `double` and `float` values are elements of an ordered field `α`.
The accumulation and the division of `AverageIntensityOverTime` and the store of
the pixel loop round their results: the rounding is a parameter (`RoundDouble`,
`Store`), which is `id` in exact arithmetic and `RoundToDouble`, `StoreSingle`
(round to nearest, ties to even, on `ℚ`) in the arithmetic of the code. The gain
computation of lines 81-88 is written in exact arithmetic, with `std::sqrt` a
parameter `sqrt : α → α` instantiated by `Real.sqrt`. Frame offsets, heights and
widths are mathematical integers. In the pixel stage the frames live at the
addresses of a `FrameMemory`, so that a copy is a new address and a write
changes the frame at one address.
-/

namespace AutoWB

section Definitions

variable {α : Type} [LinearOrderedField α]

/-! ## Construction (lines 14-21) -/

/-- What the constructor asks of the input clip: `Clip.WithConstantFormat()`,
`Clip.WithConstantDimensions()`, `Clip.IsSinglePrecision()`, `Clip.IsRGB()`. -/
structure VideoNode where
  WithConstantFormat : Bool
  WithConstantDimensions : Bool
  IsSinglePrecision : Bool
  IsRGB : Bool

/-- The arguments of the filter, `"clip:clip;radius:int:opt;"`: the optional
`radius` is `none` when `Arguments["radius"].Exists()` is false. -/
structure Arguments where
  clip : VideoNode
  radius : Option Int

/-- The configuration a constructed filter keeps: the field `Radius`. -/
structure AutoBalance where
  Radius : Int

/-- Lines 14-21: `Radius` starts at `0` and takes the argument when it exists;
then the clip is checked, then the radius; each failed check throws a
`RuntimeError` with its message. -/
def AutoBalance.Construct (Arguments : Arguments) : Except String AutoBalance :=
  let Clip := Arguments.clip
  let Radius :=
    match Arguments.radius with
    | some Value => Value
    | none => 0
  if !Clip.WithConstantFormat || !Clip.WithConstantDimensions
      || !Clip.IsSinglePrecision || !Clip.IsRGB then
    Except.error "only RGBS input supported."
  else if Radius < 0 then
    Except.error "radius cannot be negative!"
  else
    Except.ok { Radius := Radius }

/-! ## Frames, windows and ranges -/

/-- One plane of a frame: its `Height`, its `Width` and its samples, read and
written as `Plane[y][x]`. -/
structure Plane (α : Type) where
  Height : Int
  Width : Int
  Pixels : Int → Int → α

/-- A frame of one of the single-plane clips `R`, `G`, `B`: its plane `Frame[0]`
and the three properties the filter reads, `Frame["PlaneStatsAverage"]`,
`Frame["_SceneChangePrev"]` and `Frame["_SceneChangeNext"]`; the two scene tags
may be absent (`.Exists()` is false), which is `none`. -/
structure Frame (α : Type) where
  Plane0 : Plane α
  PlaneStatsAverage : α
  SceneChangePrev : Option Bool
  SceneChangeNext : Option Bool

/-- Modelled from the spec: the one-argument `Range{ n }` of `Interface.vxx`, a
header that is not among the sources. For `n ≥ 0` it runs `0, 1, ..., n - 1`
(the pixel loops, "map over every pixel"); for the negative argument of
`Range{ -Radius }` it runs "from `-1` down to `-radius`" (spec 4.1, step 1). -/
def Range1 (Endpoint : Int) : List Int :=
  if 0 ≤ Endpoint then (List.range Endpoint.toNat).map (fun (i : Nat) => (i : Int))
  else (List.range (-Endpoint).toNat).map (fun (i : Nat) => -1 - (i : Int))

/-- Modelled from the spec: the two-argument `Range{ a, b }` of `Interface.vxx`,
which runs `a, a + 1, ..., b - 1` ("from `start` forward to `radius`", "for `t`
in `[start, end)`"). The code only builds it with `a < b`; here it is empty
when `b ≤ a`. -/
def Range2 (Startpoint Endpoint : Int) : List Int :=
  (List.range (Endpoint - Startpoint).toNat).map (fun (i : Nat) => Startpoint + (i : Int))

/-! ## Rounding of `double` and `float` results -/

/-- The integer nearest to `q`, the even one of the two when `q` lies half way
between them. -/
def RoundHalfEven (q : ℚ) : Int :=
  if q - (⌊q⌋ : ℚ) < 1 / 2 then ⌊q⌋
  else if 1 / 2 < q - (⌊q⌋ : ℚ) then ⌊q⌋ + 1
  else if ⌊q⌋ % 2 = 0 then ⌊q⌋ else ⌊q⌋ + 1

/-- Round to nearest, ties to even, in a binary format with `Precision`
significant bits whose smallest spacing is `2 ^ MinExponent`: `x` is rounded to a
multiple of `2 ^ k`, with `k = max (⌊log2 |x|⌋ - (Precision - 1)) MinExponent`.
Overflow to infinity is not modelled. -/
def RoundNearestEven (Precision : Nat) (MinExponent : Int) (x : ℚ) : ℚ :=
  let k : Int := max (Int.log 2 |x| - ((Precision : Int) - 1)) MinExponent
  (RoundHalfEven (x / 2 ^ k) : ℚ) * 2 ^ k

/-- The result of an operation on `double` values: the exact result rounded to
binary64 (53 significant bits, subnormal spacing `2 ^ -1074`). -/
def RoundToDouble (x : ℚ) : ℚ := RoundNearestEven 53 (-1074) x

/-- A value converted to `float`: rounded to binary32 (24 significant bits,
subnormal spacing `2 ^ -149`). -/
def RoundToSingle (x : ℚ) : ℚ := RoundNearestEven 24 (-149) x

/-- What `float *= double` stores for the exact product `x`: the product is
formed in `double` and then converted to `float`. -/
def StoreSingle (x : ℚ) : ℚ := RoundToSingle (RoundToDouble x)

/-! ## `AverageIntensityOverTime` (lines 56-75) -/

/-- Lines 61-62 and 67-68: the property `.Exists()` and its `static_cast<bool>`
is true. -/
def SceneChangeTag (Property : Option Bool) : Bool :=
  match Property with
  | some Tag => Tag
  | none => false

/-- Lines 58 and 60-65: `CurrentSceneStartIndex` after the first loop, which
stops (`break`) at the first offset of `Range{ -Radius }` tagged
`_SceneChangePrev`, and is `-Radius` when the loop finds none. -/
def CurrentSceneStartIndex (Radius : Int) (ReferenceFrames : Int → Frame α) : Int :=
  match (Range1 (-Radius)).find?
      (fun t => SceneChangeTag (ReferenceFrames t).SceneChangePrev) with
  | some t => t
  | none => -Radius

/-- Lines 59 and 66-71: `CurrentSceneEndIndex` after the second loop, which
stops at the first offset `t` of `Range{ CurrentSceneStartIndex, Radius + 1 }`
tagged `_SceneChangeNext` with `t + 1`, and is `Radius + 1` when the loop finds
none. -/
def CurrentSceneEndIndex (Radius : Int) (ReferenceFrames : Int → Frame α) : Int :=
  match (Range2 (CurrentSceneStartIndex Radius ReferenceFrames) (Radius + 1)).find?
      (fun t => SceneChangeTag (ReferenceFrames t).SceneChangeNext) with
  | some t => t + 1
  | none => Radius + 1

/-- Lines 56-75: the third loop accumulates `PlaneStatsAverage` from `0.` over
`Range{ CurrentSceneStartIndex, CurrentSceneEndIndex }`, one `double` addition
per offset, and the total is divided in `double` by
`CurrentSceneEndIndex - CurrentSceneStartIndex`. `RoundDouble` is the rounding
of the result of each `double` operation. -/
def AverageIntensityOverTime (RoundDouble : α → α) (Radius : Int)
    (ReferenceFrames : Int → Frame α) : α :=
  let CurrentSceneStartIndex := CurrentSceneStartIndex Radius ReferenceFrames
  let CurrentSceneEndIndex := CurrentSceneEndIndex Radius ReferenceFrames
  let AccumulatedIntensity :=
    (Range2 CurrentSceneStartIndex CurrentSceneEndIndex).foldl
      (fun Accumulated t =>
        RoundDouble (Accumulated + (ReferenceFrames t).PlaneStatsAverage)) 0
  RoundDouble
    (AccumulatedIntensity / ((CurrentSceneEndIndex - CurrentSceneStartIndex : Int) : α))

/-- Lines 55 and 76-77: `std::array{ AverageIntensityOverTime(References)... }`
on the three windows. -/
def EvaluateAccumulatedIntensities (RoundDouble : α → α) (Radius : Int)
    (RFrames GFrames BFrames : Int → Frame α) : α × α × α :=
  (AverageIntensityOverTime RoundDouble Radius RFrames,
   AverageIntensityOverTime RoundDouble Radius GFrames,
   AverageIntensityOverTime RoundDouble Radius BFrames)

/-! ## The gain computation of `DrawFrame` (lines 79-88) -/

/-- Line 79: `constexpr auto Epsilon = 1e-20;`. -/
def Epsilon : α := 1 / 10 ^ 20

/-- Line 81: `std::max({ RIntensity, GIntensity, BIntensity })`. -/
def MaxIntensity (RIntensity GIntensity BIntensity : α) : α :=
  max (max RIntensity GIntensity) BIntensity

/-- Lines 82-84, one channel: `MaxIntensity / std::max(Intensity, Epsilon)`. -/
def RawCorrection (MaxIntensity Intensity : α) : α :=
  MaxIntensity / max Intensity Epsilon

/-- Line 85: `std::sqrt(R * R + G * G + B * B) / std::sqrt(3)` on the three raw
corrections. -/
def NormalizationFactor (sqrt : α → α) (RCorrection GCorrection BCorrection : α) : α :=
  sqrt (RCorrection * RCorrection + GCorrection * GCorrection + BCorrection * BCorrection)
    / sqrt 3

/-- Lines 81-88: the three final corrections `(RCorrection, GCorrection,
BCorrection)` that `DrawFrame` computes from the three reduced intensities. -/
def Corrections (sqrt : α → α) (RIntensity GIntensity BIntensity : α) : α × α × α :=
  let MaxIntensity := MaxIntensity RIntensity GIntensity BIntensity
  let RCorrection := RawCorrection MaxIntensity RIntensity
  let GCorrection := RawCorrection MaxIntensity GIntensity
  let BCorrection := RawCorrection MaxIntensity BIntensity
  let NormalizationFactor := NormalizationFactor sqrt RCorrection GCorrection BCorrection
  (RCorrection / max NormalizationFactor Epsilon,
   GCorrection / max NormalizationFactor Epsilon,
   BCorrection / max NormalizationFactor Epsilon)

/-- The root mean square of a triple of gains, `sqrt((r² + g² + b²) / 3)`: the
quantity the normalisation of lines 85-88 is meant to bring to one. -/
def RootMeanSquare (sqrt : α → α) (g : α × α × α) : α :=
  sqrt ((g.1 ^ 2 + g.2.1 ^ 2 + g.2.2 ^ 2) / 3)

/-! ## The pixel loop of `DrawFrame` (lines 51-53 and 90-95) -/

/-- Line 92 (93, 94): `Plane[y][x] *= Correction`, a `float` sample times a
`double` correction stored back into the `float` sample. `Store` is the rounding
of the exact product on its way into the sample. -/
def Plane.Scale (Store : α → α) (P : Plane α) (y x : Int) (Correction : α) : Plane α :=
  { P with
    Pixels := fun y' x' =>
      if y' = y ∧ x' = x then Store (P.Pixels y x * Correction) else P.Pixels y' x' }

/-- The frames the runtime holds: the contents of the frame at each address, and
the first address that is not allocated yet. A frame handle of the code
(`RFrames[0]`, `ComponentR`) is an address. -/
structure FrameMemory (α : Type) where
  Frames : Nat → Frame α
  Next : Nat

/-- Modelled from the spec: `Core.CopyFrame` of `Interface.vxx`, which returns
a "freshly allocated copy" of the frame it is given: the first free address now
holds the contents of `Source`, no other address changes, and the new address
is returned. -/
def CopyFrame (Memory : FrameMemory α) (Source : Nat) : FrameMemory α × Nat :=
  ({ Frames := fun Address =>
       if Address = Memory.Next then Memory.Frames Source else Memory.Frames Address,
     Next := Memory.Next + 1 },
   Memory.Next)

/-- Line 92 (93, 94): `Component[0][y][x] *= Correction`, written into plane `0`
of the frame at the address `Component`. -/
def ScaleSample (Store : α → α) (Memory : FrameMemory α) (Component : Nat) (y x : Int)
    (Correction : α) : FrameMemory α :=
  { Memory with
    Frames := fun Address =>
      if Address = Component then
        { Memory.Frames Component with
          Plane0 := (Memory.Frames Component).Plane0.Scale Store y x Correction }
      else Memory.Frames Address }

/-- Lines 92-94: the body of the pixel loop at `(y, x)`, three writes in the
order of the code. -/
def LoopBody (Store : α → α) (Correction : α × α × α)
    (ComponentR ComponentG ComponentB : Nat) (Memory : FrameMemory α) (y x : Int) :
    FrameMemory α :=
  ScaleSample Store
    (ScaleSample Store
      (ScaleSample Store Memory ComponentR y x Correction.1)
      ComponentG y x Correction.2.1)
    ComponentB y x Correction.2.2

/-- Lines 90-95: `for y : Range{ ComponentR[0].Height }`,
`for x : Range{ ComponentR[0].Width }`, the body. -/
def PixelLoop (Store : α → α) (Correction : α × α × α)
    (ComponentR ComponentG ComponentB : Nat) (Memory : FrameMemory α) : FrameMemory α :=
  (Range1 (Memory.Frames ComponentR).Plane0.Height).foldl
    (fun Memory y =>
      (Range1 (Memory.Frames ComponentR).Plane0.Width).foldl
        (fun Memory x => LoopBody Store Correction ComponentR ComponentG ComponentB Memory y x)
        Memory)
    Memory

/-- What `DrawFrame` leaves behind: the memory after its writes and the
addresses of the three components `ComponentR`, `ComponentG`, `ComponentB`. -/
structure DrawState (α : Type) where
  Memory : FrameMemory α
  ComponentR : Nat
  ComponentG : Nat
  ComponentB : Nat

/-- Lines 51-53 and 90-95: the three anchor frames are copied and the copies
are scaled by the three corrections. -/
def ApplyCorrections (Store : α → α) (Correction : α × α × α) (Memory : FrameMemory α)
    (RFrame GFrame BFrame : Nat) : DrawState α :=
  let CopyR := CopyFrame Memory RFrame
  let CopyG := CopyFrame CopyR.1 GFrame
  let CopyB := CopyFrame CopyG.1 BFrame
  { Memory := PixelLoop Store Correction CopyR.2 CopyG.2 CopyB.2 CopyB.1,
    ComponentR := CopyR.2,
    ComponentG := CopyG.2,
    ComponentB := CopyB.2 }

/-- Lines 46-95 of `DrawFrame`, on the windows of frame addresses fetched on
lines 47-49: the frames at offset `0` of the three windows are copied, the three
windows are reduced to intensities, the intensities to corrections, and the
copies are scaled. -/
def DrawFrame (RoundDouble Store sqrt : α → α) (Radius : Int) (Memory : FrameMemory α)
    (RFrames GFrames BFrames : Int → Nat) : DrawState α :=
  let CopyR := CopyFrame Memory (RFrames 0)
  let CopyG := CopyFrame CopyR.1 (GFrames 0)
  let CopyB := CopyFrame CopyG.1 (BFrames 0)
  let Intensities :=
    EvaluateAccumulatedIntensities RoundDouble Radius
      (fun t => CopyB.1.Frames (RFrames t))
      (fun t => CopyB.1.Frames (GFrames t))
      (fun t => CopyB.1.Frames (BFrames t))
  { Memory :=
      PixelLoop Store (Corrections sqrt Intensities.1 Intensities.2.1 Intensities.2.2)
        CopyR.2 CopyG.2 CopyB.2 CopyB.1,
    ComponentR := CopyR.2,
    ComponentG := CopyG.2,
    ComponentB := CopyB.2 }

/-- Line 97: the planes of the frame that `Core.ShufflePlanes` composes from
plane `0` of the three components. -/
def ProcessedFrame (s : DrawState α) : Plane α × Plane α × Plane α :=
  ((s.Memory.Frames s.ComponentR).Plane0,
   (s.Memory.Frames s.ComponentG).Plane0,
   (s.Memory.Frames s.ComponentB).Plane0)

/-! ## Sample windows -/

/-- A frame with an empty plane, carrying only the three properties. -/
def StatFrame (PlaneStatsAverage : ℚ) (SceneChangePrev SceneChangeNext : Option Bool) :
    Frame ℚ :=
  { Plane0 := { Height := 0, Width := 0, Pixels := fun _ _ => 0 },
    PlaneStatsAverage := PlaneStatsAverage,
    SceneChangePrev := SceneChangePrev,
    SceneChangeNext := SceneChangeNext }

/-- A window whose only tag is a true `_SceneChangeNext` at offset `-1`. -/
def NextCutBeforeAnchor : Int → Frame ℚ := fun t =>
  if t = -1 then StatFrame 10 none (some true) else StatFrame 20 none none

/-- A window with no true tag: `_SceneChangePrev` is absent everywhere and
`_SceneChangeNext` is present and false everywhere. -/
def UntaggedWindow : Int → Frame ℚ := fun _ => StatFrame 5 none (some false)

/-- A window with a true `_SceneChangePrev` at offset `-1` and a true
`_SceneChangeNext` at offset `1`. -/
def CutOnBothSides : Int → Frame ℚ := fun t =>
  if t = -1 then StatFrame 1 (some true) none
  else if t = 1 then StatFrame 3 none (some true)
  else StatFrame 2 none none

/-- A window whose only tag is a true `_SceneChangePrev` at offset `-2`. -/
def PrevCutTwoBefore : Int → Frame ℚ := fun t =>
  if t = -2 then StatFrame 7 (some true) none else StatFrame 9 none none

/-- A window whose only tag is a true `_SceneChangeNext` at offset `1`. -/
def NextCutOneAfter : Int → Frame ℚ := fun t =>
  if t = 1 then StatFrame 7 none (some true) else StatFrame 9 none none

/-- A window with a true `_SceneChangePrev` at the offsets `-3`, `-1` and `0`
(the anchor), and no other tag. -/
def PrevCutsAndAnchor : Int → Frame ℚ := fun t =>
  if t = -3 ∨ t = -1 ∨ t = 0 then StatFrame 4 (some true) none else StatFrame 6 none none

/-! ## Sample frames -/

/-- A frame whose plane has two rows and three columns, with sample
`Offset + 10 * y + x` at `(y, x)`. -/
def SampleFrame (Offset : ℚ) : Frame ℚ :=
  { Plane0 := { Height := 2, Width := 3, Pixels := fun y x => Offset + 10 * y + x },
    PlaneStatsAverage := Offset,
    SceneChangePrev := none,
    SceneChangeNext := none }

/-- A frame with a one-sample plane, the given `PlaneStatsAverage` and no scene
tag. -/
def PlainFrame (PlaneStatsAverage : α) : Frame α :=
  { Plane0 := { Height := 1, Width := 1, Pixels := fun _ _ => PlaneStatsAverage },
    PlaneStatsAverage := PlaneStatsAverage,
    SceneChangePrev := none,
    SceneChangeNext := none }

/-- A window of `PlaneStatsAverage` values `a, b, c` at the offsets `-1, 0, 1`,
with no scene tag. -/
def ThreeFrames (a b c : α) : Int → Frame α := fun t =>
  if t = -1 then PlainFrame a else if t = 0 then PlainFrame b else PlainFrame c

/-- The `double` nearest to `0.1`, which is `3602879701896397 / 2 ^ 55`. -/
def TenthDouble : ℚ := 3602879701896397 / 36028797018963968

/-- The `double` that `0.1 + 0.1 + 0.1` evaluates to, `5404319552844596 / 2 ^ 54`
(printed `0.30000000000000004`). -/
def ThreeTenthsDouble : ℚ := 1351079888211149 / 4503599627370496

/-- The `double` that `(0.1 + 0.1 + 0.1) / 3` evaluates to,
`7205759403792795 / 2 ^ 56` (printed `0.10000000000000002`). -/
def TenthMeanDouble : ℚ := 7205759403792795 / 72057594037927936

/-- A window of three frames whose `PlaneStatsAverage` is the `double` nearest
to `0.1`, with no scene tag. -/
def TenthWindow : Int → Frame ℚ := ThreeFrames TenthDouble TenthDouble TenthDouble

/-- A window of `PlaneStatsAverage` values `1e16, 1, -1e16` at the offsets
`-1, 0, 1`, with no scene tag. -/
def CancellingWindow : Int → Frame ℚ := ThreeFrames (10 ^ 16) 1 (-(10 ^ 16))

/-- A frame with a single sample, `16777215 = 2 ^ 24 - 1`. -/
def BrightFrame : Frame ℚ := PlainFrame 16777215

/-- A memory of three allocated frames, each with the single sample `16777215`. -/
def BrightMemory : FrameMemory ℚ := { Frames := fun _ => BrightFrame, Next := 3 }

/-- A memory of three allocated frames of two rows and three columns, with
samples `100 * Address + 10 * y + x`. -/
def SampleMemory : FrameMemory ℚ :=
  { Frames := fun Address => SampleFrame (100 * (Address : ℚ)), Next := 3 }

end Definitions

/-! ## Properties -/

section GainLemmas

theorem Epsilon_pos : (0 : ℝ) < Epsilon := by
  unfold Epsilon; positivity

theorem Epsilon_lt_one : (Epsilon : ℝ) < 1 := by
  unfold Epsilon; norm_num

theorem max_Epsilon_pos (x : ℝ) : 0 < max x Epsilon :=
  lt_of_lt_of_le Epsilon_pos (le_max_right _ _)

/-- The normalisation factor is the square root of the mean of the squares. -/
theorem NormalizationFactor_eq (r g b : ℝ) :
    NormalizationFactor Real.sqrt r g b = Real.sqrt ((r ^ 2 + g ^ 2 + b ^ 2) / 3) := by
  unfold NormalizationFactor
  rw [Real.sqrt_div' _ (by norm_num : (0 : ℝ) ≤ 3)]
  congr 2
  ring

theorem NormalizationFactor_nonneg (r g b : ℝ) :
    0 ≤ NormalizationFactor Real.sqrt r g b := by
  rw [NormalizationFactor_eq]; exact Real.sqrt_nonneg _

/-- Three equal raw corrections have their absolute value as normalisation
factor. -/
theorem NormalizationFactor_same (q : ℝ) :
    NormalizationFactor Real.sqrt q q q = |q| := by
  rw [NormalizationFactor_eq]
  have : (q ^ 2 + q ^ 2 + q ^ 2) / 3 = q ^ 2 := by ring
  rw [this, Real.sqrt_sq_eq_abs]

theorem MaxIntensity_same (I : ℝ) : MaxIntensity I I I = I := by
  simp [MaxIntensity]

/-- The maximum is one of the three intensities. -/
theorem MaxIntensity_mem (IR IG IB : ℝ) :
    MaxIntensity IR IG IB = IR ∨ MaxIntensity IR IG IB = IG ∨ MaxIntensity IR IG IB = IB := by
  unfold MaxIntensity
  rcases max_choice (max IR IG) IB with h | h
  · rcases max_choice IR IG with h2 | h2
    · left; rw [h, h2]
    · right; left; rw [h, h2]
  · right; right; exact h

theorem le_MaxIntensity (IR IG IB : ℝ) :
    IR ≤ MaxIntensity IR IG IB ∧ IG ≤ MaxIntensity IR IG IB ∧ IB ≤ MaxIntensity IR IG IB := by
  unfold MaxIntensity
  exact ⟨le_trans (le_max_left _ _) (le_max_left _ _),
    le_trans (le_max_right _ _) (le_max_left _ _), le_max_right _ _⟩

/-- On three equal intensities the three corrections are equal, with the raw
correction `q = I / max(I, ε)` divided by `max(|q|, ε)`. -/
theorem Corrections_same (I : ℝ) :
    Corrections Real.sqrt I I I =
      (I / max I Epsilon / max |I / max I Epsilon| Epsilon,
       I / max I Epsilon / max |I / max I Epsilon| Epsilon,
       I / max I Epsilon / max |I / max I Epsilon| Epsilon) := by
  simp only [Corrections, MaxIntensity_same, RawCorrection, NormalizationFactor_same]

/-- The root mean square of three equal gains is their absolute value. -/
theorem RootMeanSquare_same (c : ℝ) : RootMeanSquare Real.sqrt (c, c, c) = |c| := by
  unfold RootMeanSquare
  have : (c ^ 2 + c ^ 2 + c ^ 2) / 3 = c ^ 2 := by ring
  simp only [this, Real.sqrt_sq_eq_abs]

/-- When the normalisation factor is not below `Epsilon`, dividing by it brings
the root mean square of the corrections to one. -/
theorem RootMeanSquare_normalized (r g b : ℝ)
    (h : Epsilon ≤ NormalizationFactor Real.sqrt r g b) :
    RootMeanSquare Real.sqrt
      (r / max (NormalizationFactor Real.sqrt r g b) Epsilon,
       g / max (NormalizationFactor Real.sqrt r g b) Epsilon,
       b / max (NormalizationFactor Real.sqrt r g b) Epsilon) = 1 := by
  rw [max_eq_left h]
  have hN : 0 < NormalizationFactor Real.sqrt r g b := lt_of_lt_of_le Epsilon_pos h
  have hsq : (NormalizationFactor Real.sqrt r g b) ^ 2 = (r ^ 2 + g ^ 2 + b ^ 2) / 3 := by
    rw [NormalizationFactor_eq]
    exact Real.sq_sqrt (by positivity)
  unfold RootMeanSquare
  have key : ((r / NormalizationFactor Real.sqrt r g b) ^ 2
      + (g / NormalizationFactor Real.sqrt r g b) ^ 2
      + (b / NormalizationFactor Real.sqrt r g b) ^ 2) / 3 = 1 := by
    have hne : (NormalizationFactor Real.sqrt r g b) ^ 2 ≠ 0 := by positivity
    simp only [div_pow]
    rw [← add_div, ← add_div, div_div, mul_comm, ← div_div, ← hsq, div_self hne]
  simp only [key, Real.sqrt_one]

/-- The normalisation factor of the raw corrections is at least `Epsilon` as
soon as the largest intensity is at least `Epsilon ^ 2 = 1e-40`. -/
theorem Epsilon_le_NormalizationFactor (IR IG IB : ℝ)
    (hM : 1 / 10 ^ 40 ≤ MaxIntensity IR IG IB) :
    Epsilon ≤ NormalizationFactor Real.sqrt
      (RawCorrection (MaxIntensity IR IG IB) IR)
      (RawCorrection (MaxIntensity IR IG IB) IG)
      (RawCorrection (MaxIntensity IR IG IB) IB) := by
  set M := MaxIntensity IR IG IB with hMdef
  have hMpos : 0 < M := lt_of_lt_of_le (by norm_num) hM
  have hε : (0 : ℝ) < Epsilon := Epsilon_pos
  rw [NormalizationFactor_eq]
  apply Real.le_sqrt_of_sq_le
  have hsq : ∀ x : ℝ, 0 ≤ x ^ 2 := fun x => sq_nonneg x
  -- every raw correction that is at least `Epsilon` in absolute value is enough
  rcases le_or_lt (Epsilon : ℝ) M with hge | hlt
  · -- the brightest channel has raw correction one
    have hone : RawCorrection M M = 1 := by
      unfold RawCorrection
      rw [max_eq_left hge, div_self (ne_of_gt hMpos)]
    have hE : (Epsilon : ℝ) ^ 2 ≤ 1 / 3 := by unfold Epsilon; norm_num
    rcases MaxIntensity_mem IR IG IB with h | h | h
    · rw [← h, ← hMdef, hone]
      nlinarith [hsq (RawCorrection M IG), hsq (RawCorrection M IB)]
    · rw [← h, ← hMdef, hone]
      nlinarith [hsq (RawCorrection M IR), hsq (RawCorrection M IB)]
    · rw [← h, ← hMdef, hone]
      nlinarith [hsq (RawCorrection M IR), hsq (RawCorrection M IG)]
  · -- every channel is below `Epsilon`: all raw corrections are `M / Epsilon`
    obtain ⟨h1, h2, h3⟩ := le_MaxIntensity IR IG IB
    have e1 : RawCorrection M IR = M / Epsilon := by
      unfold RawCorrection; rw [max_eq_right (le_of_lt (lt_of_le_of_lt h1 hlt))]
    have e2 : RawCorrection M IG = M / Epsilon := by
      unfold RawCorrection; rw [max_eq_right (le_of_lt (lt_of_le_of_lt h2 hlt))]
    have e3 : RawCorrection M IB = M / Epsilon := by
      unfold RawCorrection; rw [max_eq_right (le_of_lt (lt_of_le_of_lt h3 hlt))]
    rw [e1, e2, e3]
    have hq : (Epsilon : ℝ) ≤ M / Epsilon := by
      rw [le_div_iff₀ hε]
      have : (Epsilon : ℝ) * Epsilon = 1 / 10 ^ 40 := by unfold Epsilon; norm_num
      rw [this]; exact hM
    have : (M / Epsilon) ^ 2 + (M / Epsilon) ^ 2 + (M / Epsilon) ^ 2 = 3 * (M / Epsilon) ^ 2 := by
      ring
    rw [this, mul_div_cancel_left₀ _ (by norm_num : (3 : ℝ) ≠ 0)]
    exact pow_le_pow_left₀ (le_of_lt hε) hq 2

/-- Three equal positive intensities below `Epsilon ^ 2`: the guard
`max(NormalizationFactor, Epsilon)` takes over and every correction is
`I / Epsilon ^ 2`. -/
theorem Corrections_same_tiny (I : ℝ) (h0 : 0 < I) (h1 : I < 1 / 10 ^ 40) :
    Corrections Real.sqrt I I I =
      (I / Epsilon / Epsilon, I / Epsilon / Epsilon, I / Epsilon / Epsilon) := by
  have hε : (0 : ℝ) < Epsilon := Epsilon_pos
  have hI : I ≤ Epsilon := by
    have : (1 : ℝ) / 10 ^ 40 ≤ Epsilon := by unfold Epsilon; norm_num
    linarith
  have hq : I / Epsilon ≤ Epsilon := by
    rw [div_le_iff₀ hε]
    have : (Epsilon : ℝ) * Epsilon = 1 / 10 ^ 40 := by unfold Epsilon; norm_num
    rw [this]; exact le_of_lt h1
  rw [Corrections_same, max_eq_right hI, abs_of_pos (div_pos h0 hε), max_eq_right hq]

end GainLemmas

section WindowLemmas

variable {α : Type}

theorem mem_Range1_neg (Radius t : Int) (hR : 0 ≤ Radius) :
    t ∈ Range1 (-Radius) ↔ -Radius ≤ t ∧ t ≤ -1 := by
  unfold Range1
  by_cases h0 : Radius = 0
  · subst h0
    simp
    omega
  · have hneg : ¬ (0 ≤ -Radius) := by omega
    simp only [hneg, if_false, List.mem_map, List.mem_range, neg_neg]
    constructor
    · rintro ⟨i, hi, rfl⟩
      omega
    · rintro ⟨h1, h2⟩
      refine ⟨(-1 - t).toNat, ?_, ?_⟩ <;> omega

theorem mem_Range2 (a b t : Int) : t ∈ Range2 a b ↔ a ≤ t ∧ t < b := by
  unfold Range2
  simp only [List.mem_map, List.mem_range]
  constructor
  · rintro ⟨i, hi, rfl⟩
    omega
  · rintro ⟨h1, h2⟩
    refine ⟨(t - a).toNat, ?_, ?_⟩ <;> omega

theorem Range2_nil (a b : Int) (h : b ≤ a) : Range2 a b = [] := by
  unfold Range2
  have : (b - a).toNat = 0 := by omega
  rw [this]; rfl

theorem Range2_cons (a b : Int) (h : a < b) : Range2 a b = a :: Range2 (a + 1) b := by
  unfold Range2
  obtain ⟨n, hn⟩ : ∃ n : Nat, (b - a).toNat = n + 1 := ⟨(b - a).toNat - 1, by omega⟩
  have hn2 : (b - (a + 1)).toNat = n := by omega
  rw [hn, hn2, List.range_succ_eq_map, List.map_cons, List.map_map]
  simp only [Nat.cast_zero, add_zero, List.cons.injEq, true_and]
  apply List.map_congr_left
  intro i _
  simp only [Function.comp_apply, Nat.cast_succ]
  ring

theorem Range2_nodup (a b : Int) : (Range2 a b).Nodup := by
  unfold Range2
  apply List.Nodup.map _ (List.nodup_range _)
  intro i j hij
  simpa using hij

/-- The loop with `break` over `Range{ a, b }` stops at the smallest offset of
`[a, b)` that passes the test. -/
theorem find_Range2_some (p : Int → Bool) (n : Nat) :
    ∀ (a b t : Int), (b - a).toNat = n → (Range2 a b).find? p = some t →
      a ≤ t ∧ t < b ∧ p t = true ∧ ∀ u, a ≤ u → u < t → p u = false := by
  induction n with
  | zero =>
    intro a b t hn h
    rw [Range2_nil a b (by omega)] at h
    simp at h
  | succ n ih =>
    intro a b t hn h
    rw [Range2_cons a b (by omega)] at h
    by_cases hp : p a = true
    · rw [List.find?_cons_of_pos _ hp] at h
      have hat : a = t := by simpa using h
      subst hat
      refine ⟨le_refl _, by omega, hp, ?_⟩
      intro u h1 h2
      omega
    · rw [List.find?_cons_of_neg _ hp] at h
      obtain ⟨h1, h2, h3, h4⟩ := ih (a + 1) b t (by omega) h
      refine ⟨by omega, h2, h3, ?_⟩
      intro u hu1 hu2
      by_cases hua : u = a
      · subst hua; simpa using hp
      · exact h4 u (by omega) hu2

theorem find_Range2_none (p : Int → Bool) (a b : Int)
    (h : (Range2 a b).find? p = none) : ∀ u, a ≤ u → u < b → p u = false := by
  intro u h1 h2
  have := List.find?_eq_none.mp h u ((mem_Range2 a b u).mpr ⟨h1, h2⟩)
  simpa using this

/-- What the first loop leaves in `CurrentSceneStartIndex`. -/
theorem CurrentSceneStartIndex_spec (Radius : Int) (hR : 0 ≤ Radius)
    (ReferenceFrames : Int → Frame α) :
    -Radius ≤ CurrentSceneStartIndex Radius ReferenceFrames ∧
      CurrentSceneStartIndex Radius ReferenceFrames ≤ 0 := by
  unfold CurrentSceneStartIndex
  cases h : (Range1 (-Radius)).find?
      (fun t => SceneChangeTag (ReferenceFrames t).SceneChangePrev) with
  | none => simp only; omega
  | some t =>
    have hm := (mem_Range1_neg Radius t hR).mp (List.mem_of_find?_eq_some h)
    simp only
    omega

/-- What the second loop leaves in `CurrentSceneEndIndex`: `Radius + 1` when it
met no `_SceneChangeNext` tag in `[start, Radius]`, and otherwise `t + 1` for the
smallest tagged offset `t` of `[start, Radius]`. -/
theorem CurrentSceneEndIndex_spec (Radius : Int) (ReferenceFrames : Int → Frame α) :
    (CurrentSceneEndIndex Radius ReferenceFrames = Radius + 1 ∧
      ∀ u, CurrentSceneStartIndex Radius ReferenceFrames ≤ u → u ≤ Radius →
        SceneChangeTag (ReferenceFrames u).SceneChangeNext = false) ∨
    (∃ t, CurrentSceneEndIndex Radius ReferenceFrames = t + 1 ∧
      CurrentSceneStartIndex Radius ReferenceFrames ≤ t ∧ t ≤ Radius ∧
      SceneChangeTag (ReferenceFrames t).SceneChangeNext = true ∧
      ∀ u, CurrentSceneStartIndex Radius ReferenceFrames ≤ u → u < t →
        SceneChangeTag (ReferenceFrames u).SceneChangeNext = false) := by
  unfold CurrentSceneEndIndex
  cases h : (Range2 (CurrentSceneStartIndex Radius ReferenceFrames) (Radius + 1)).find?
      (fun t => SceneChangeTag (ReferenceFrames t).SceneChangeNext) with
  | none =>
    left
    refine ⟨rfl, ?_⟩
    intro u h1 h2
    exact find_Range2_none _ _ _ h u h1 (by omega)
  | some t =>
    right
    obtain ⟨h1, h2, h3, h4⟩ := find_Range2_some _ _ _ _ t rfl h
    exact ⟨t, rfl, h1, by omega, h3, h4⟩

/-- Without rounding, the accumulation loop over `Range{ a, b }` computes the sum
over the offsets of `[a, b)`. -/
theorem foldl_Range2_eq_sum {β : Type} [AddCommMonoid β] (f : Int → β) (a b : Int) :
    (Range2 a b).foldl (fun Accumulated t => Accumulated + f t) 0
      = ∑ t in Finset.Ico a b, f t := by
  have h1 : (Range2 a b).foldl (fun Accumulated t => Accumulated + f t) 0
      = ((Range2 a b).map f).sum := by
    rw [List.sum_eq_foldl, List.foldl_map]
  have h2 : (Range2 a b).toFinset = Finset.Ico a b := by
    ext t
    simp only [List.mem_toFinset, mem_Range2, Finset.mem_Ico]
  rw [h1, ← h2, List.sum_toFinset f (Range2_nodup a b)]

theorem sum_Ico_succ_bot {β : Type} [AddCommMonoid β] (f : Int → β) (a k : Int)
    (h : a < k) :
    ∑ t in Finset.Ico a k, f t = f a + ∑ t in Finset.Ico (a + 1) k, f t := by
  have hins : Finset.Ico a k = insert a (Finset.Ico (a + 1) k) := by
    ext t
    simp only [Finset.mem_Ico, Finset.mem_insert]
    omega
  have hnot : a ∉ Finset.Ico (a + 1) k := by
    simp only [Finset.mem_Ico]
    omega
  rw [hins, Finset.sum_insert hnot]

/-- The accumulation loop with a rounded addition: when no partial sum is
changed by the rounding, the loop over `Range{ a, b }` started from
`Accumulated` ends at `Accumulated` plus the sum over the offsets of `[a, b)`. -/
theorem foldl_round_Range2 {β : Type} [AddCommMonoid β] (Round : β → β) (f : Int → β)
    (b : Int) :
    ∀ (n : Nat) (a : Int) (Accumulated : β), (b - a).toNat = n →
      (∀ k, a < k → k ≤ b →
        Round (Accumulated + ∑ t in Finset.Ico a k, f t)
          = Accumulated + ∑ t in Finset.Ico a k, f t) →
      (Range2 a b).foldl (fun Accumulated t => Round (Accumulated + f t)) Accumulated
        = Accumulated + ∑ t in Finset.Ico a b, f t := by
  intro n
  induction n with
  | zero =>
    intro a acc hn _
    rw [Range2_nil a b (by omega), Finset.Ico_eq_empty (by omega)]
    simp
  | succ n ih =>
    intro a acc hn hexact
    have hab : a < b := by omega
    have hfirst : Round (acc + f a) = acc + f a := by
      have := hexact (a + 1) (by omega) (by omega)
      rw [sum_Ico_succ_bot f a (a + 1) (by omega),
        Finset.Ico_eq_empty (by omega), Finset.sum_empty, add_zero] at this
      exact this
    rw [Range2_cons a b hab, List.foldl_cons, hfirst, ih (a + 1) (acc + f a) (by omega),
      sum_Ico_succ_bot f a b hab, add_assoc]
    intro k hk1 hk2
    have := hexact k (by omega) hk2
    rw [sum_Ico_succ_bot f a k (by omega), ← add_assoc] at this
    exact this

/-- When the rounding changes no partial sum of the accumulation and does not
change the quotient, `AverageIntensityOverTime` returns the sum over
`[start, end)` divided by `end - start`. -/
theorem AverageIntensityOverTime_of_exact [LinearOrderedField α] (RoundDouble : α → α)
    (Radius : Int) (ReferenceFrames : Int → Frame α)
    (hsum : ∀ k, CurrentSceneStartIndex Radius ReferenceFrames < k →
      k ≤ CurrentSceneEndIndex Radius ReferenceFrames →
      RoundDouble (∑ t in Finset.Ico (CurrentSceneStartIndex Radius ReferenceFrames) k,
          (ReferenceFrames t).PlaneStatsAverage)
        = ∑ t in Finset.Ico (CurrentSceneStartIndex Radius ReferenceFrames) k,
          (ReferenceFrames t).PlaneStatsAverage)
    (hquot : RoundDouble
        ((∑ t in Finset.Ico (CurrentSceneStartIndex Radius ReferenceFrames)
            (CurrentSceneEndIndex Radius ReferenceFrames),
          (ReferenceFrames t).PlaneStatsAverage)
        / ((CurrentSceneEndIndex Radius ReferenceFrames
            - CurrentSceneStartIndex Radius ReferenceFrames : Int) : α))
      = (∑ t in Finset.Ico (CurrentSceneStartIndex Radius ReferenceFrames)
            (CurrentSceneEndIndex Radius ReferenceFrames),
          (ReferenceFrames t).PlaneStatsAverage)
        / ((CurrentSceneEndIndex Radius ReferenceFrames
            - CurrentSceneStartIndex Radius ReferenceFrames : Int) : α)) :
    AverageIntensityOverTime RoundDouble Radius ReferenceFrames
      = (∑ t in Finset.Ico (CurrentSceneStartIndex Radius ReferenceFrames)
            (CurrentSceneEndIndex Radius ReferenceFrames),
          (ReferenceFrames t).PlaneStatsAverage)
        / ((CurrentSceneEndIndex Radius ReferenceFrames
            - CurrentSceneStartIndex Radius ReferenceFrames : Int) : α) := by
  have hfold := foldl_round_Range2 RoundDouble
    (fun t => (ReferenceFrames t).PlaneStatsAverage)
    (CurrentSceneEndIndex Radius ReferenceFrames) _
    (CurrentSceneStartIndex Radius ReferenceFrames) 0 rfl
    (fun k h1 h2 => by rw [zero_add]; exact hsum k h1 h2)
  rw [zero_add] at hfold
  unfold AverageIntensityOverTime
  simp only [hfold, hquot]

/-- With no true tag in the window, neither loop stops early. -/
theorem resolve_untagged (Radius : Int) (hR : 0 ≤ Radius)
    (ReferenceFrames : Int → Frame α)
    (hPrev : ∀ t, -Radius ≤ t → t ≤ Radius →
      (ReferenceFrames t).SceneChangePrev = none ∨
        (ReferenceFrames t).SceneChangePrev = some false)
    (hNext : ∀ t, -Radius ≤ t → t ≤ Radius →
      (ReferenceFrames t).SceneChangeNext = none ∨
        (ReferenceFrames t).SceneChangeNext = some false) :
    CurrentSceneStartIndex Radius ReferenceFrames = -Radius ∧
      CurrentSceneEndIndex Radius ReferenceFrames = Radius + 1 := by
  have hs : CurrentSceneStartIndex Radius ReferenceFrames = -Radius := by
    unfold CurrentSceneStartIndex
    have hnone : (Range1 (-Radius)).find?
        (fun t => SceneChangeTag (ReferenceFrames t).SceneChangePrev) = none := by
      rw [List.find?_eq_none]
      intro t ht
      obtain ⟨h1, h2⟩ := (mem_Range1_neg Radius t hR).mp ht
      rcases hPrev t h1 (by omega) with h | h <;> simp [h, SceneChangeTag]
    rw [hnone]
  have he : CurrentSceneEndIndex Radius ReferenceFrames = Radius + 1 := by
    unfold CurrentSceneEndIndex
    have hnone : (Range2 (CurrentSceneStartIndex Radius ReferenceFrames) (Radius + 1)).find?
        (fun t => SceneChangeTag (ReferenceFrames t).SceneChangeNext) = none := by
      rw [List.find?_eq_none]
      intro t ht
      rw [hs] at ht
      obtain ⟨h1, h2⟩ := (mem_Range2 _ _ t).mp ht
      rcases hNext t h1 (by omega) with h | h <;> simp [h, SceneChangeTag]
    rw [hnone]
  exact ⟨hs, he⟩

end WindowLemmas

section WindowClaims

variable {α : Type}

/-- C3 (as amended): for every radius `≥ 0` and every assignment of tags, the
resolved pair satisfies `-Radius ≤ start ≤ 0` and `start < end ≤ Radius + 1`;
and `0 < end` (the anchor lies in `[start, end)`) holds exactly when no offset
`t` with `start ≤ t < 0` carries a true `_SceneChangeNext`. -/
theorem window_bounds (Radius : Int) (hR : 0 ≤ Radius) (ReferenceFrames : Int → Frame α) :
    -Radius ≤ CurrentSceneStartIndex Radius ReferenceFrames ∧
      CurrentSceneStartIndex Radius ReferenceFrames ≤ 0 ∧
      CurrentSceneStartIndex Radius ReferenceFrames
        < CurrentSceneEndIndex Radius ReferenceFrames ∧
      CurrentSceneEndIndex Radius ReferenceFrames ≤ Radius + 1 ∧
      (0 < CurrentSceneEndIndex Radius ReferenceFrames ↔
        ∀ t, CurrentSceneStartIndex Radius ReferenceFrames ≤ t → t < 0 →
          SceneChangeTag (ReferenceFrames t).SceneChangeNext = false) := by
  obtain ⟨hs1, hs2⟩ := CurrentSceneStartIndex_spec Radius hR ReferenceFrames
  rcases CurrentSceneEndIndex_spec Radius ReferenceFrames with ⟨he, hall⟩ | ⟨t, he, h1, h2, h3, h4⟩
  · refine ⟨hs1, hs2, by omega, by omega, ?_⟩
    constructor
    · intro _ t ht1 ht2
      exact hall t ht1 (by omega)
    · intro _
      omega
  · refine ⟨hs1, hs2, by omega, by omega, ?_⟩
    constructor
    · intro hpos u hu1 hu2
      exact h4 u hu1 (by omega)
    · intro hall
      by_contra hneg
      have := hall t h1 (by omega)
      rw [h3] at this
      exact Bool.noConfusion this

theorem window_bounds_witness :
    (0 : Int) ≤ 1 ∧
      (-1 ≤ CurrentSceneStartIndex 1 CutOnBothSides ∧
      CurrentSceneStartIndex 1 CutOnBothSides ≤ 0 ∧
      CurrentSceneStartIndex 1 CutOnBothSides < CurrentSceneEndIndex 1 CutOnBothSides ∧
      CurrentSceneEndIndex 1 CutOnBothSides ≤ 1 + 1 ∧
      (0 < CurrentSceneEndIndex 1 CutOnBothSides ↔
        ∀ t, CurrentSceneStartIndex 1 CutOnBothSides ≤ t → t < 0 →
          SceneChangeTag (CutOnBothSides t).SceneChangeNext = false)) :=
  ⟨by decide, window_bounds 1 (by decide) CutOnBothSides⟩

/-- C3 fails as stated: with radius `1` and a single true `_SceneChangeNext` at
offset `-1`, the resolved pair is `(start, end) = (-1, 0)`, so `0 < end` is
false and the anchor offset is outside `[start, end)`. -/
theorem window_excludes_anchor :
    CurrentSceneStartIndex 1 NextCutBeforeAnchor = -1 ∧
      CurrentSceneEndIndex 1 NextCutBeforeAnchor = 0 ∧
      ¬ (-1 ≤ CurrentSceneStartIndex 1 NextCutBeforeAnchor ∧
          CurrentSceneStartIndex 1 NextCutBeforeAnchor ≤ 0 ∧
          0 < CurrentSceneEndIndex 1 NextCutBeforeAnchor ∧
          CurrentSceneEndIndex 1 NextCutBeforeAnchor ≤ 1 + 1) := by
  have hs : CurrentSceneStartIndex 1 NextCutBeforeAnchor = -1 := by decide
  have he : CurrentSceneEndIndex 1 NextCutBeforeAnchor = 0 := by decide
  refine ⟨hs, he, ?_⟩
  rw [hs, he]
  decide

/-- C4: for every radius `R ≥ 0`, if at every offset of `-R..R` each of the two
scene tags is absent or false, the resolved pair is `(-R, R + 1)`; an absent tag
and a false one are read alike. -/
theorem default_window (Radius : Int) (hR : 0 ≤ Radius) (ReferenceFrames : Int → Frame α)
    (hPrev : ∀ t, -Radius ≤ t → t ≤ Radius →
      (ReferenceFrames t).SceneChangePrev = none ∨
        (ReferenceFrames t).SceneChangePrev = some false)
    (hNext : ∀ t, -Radius ≤ t → t ≤ Radius →
      (ReferenceFrames t).SceneChangeNext = none ∨
        (ReferenceFrames t).SceneChangeNext = some false) :
    CurrentSceneStartIndex Radius ReferenceFrames = -Radius ∧
      CurrentSceneEndIndex Radius ReferenceFrames = Radius + 1 :=
  resolve_untagged Radius hR ReferenceFrames hPrev hNext

theorem default_window_witness :
    (0 : Int) ≤ 2 ∧
      (∀ t : Int, -2 ≤ t → t ≤ 2 →
        (UntaggedWindow t).SceneChangePrev = none ∨
          (UntaggedWindow t).SceneChangePrev = some false) ∧
      (∀ t : Int, -2 ≤ t → t ≤ 2 →
        (UntaggedWindow t).SceneChangeNext = none ∨
          (UntaggedWindow t).SceneChangeNext = some false) ∧
      CurrentSceneStartIndex 2 UntaggedWindow = -2 ∧
      CurrentSceneEndIndex 2 UntaggedWindow = 2 + 1 :=
  ⟨by decide, fun _ _ _ => Or.inl rfl, fun _ _ _ => Or.inr rfl,
    default_window 2 (by decide) UntaggedWindow (fun _ _ _ => Or.inl rfl)
      (fun _ _ _ => Or.inr rfl)⟩

/-- C5 (as amended): `AverageIntensityOverTime` accumulates `PlaneStatsAverage[t]`
over the offsets `start ≤ t < end` of the resolved sub-window from left to right
and divides by `end - start`, each `double` result being rounded; the value
returned is the sum divided by `end - start` whenever the rounding changes no
partial sum and does not change the quotient, in particular in exact arithmetic
(rounding `id`); and `EvaluateAccumulatedIntensities` reduces each of the three
channels from its own window alone. -/
theorem reducer_eq [LinearOrderedField α] (RoundDouble : α → α) (Radius : Int)
    (RFrames GFrames BFrames : Int → Frame α) :
    (∀ ReferenceFrames : Int → Frame α,
      (∀ k, CurrentSceneStartIndex Radius ReferenceFrames < k →
        k ≤ CurrentSceneEndIndex Radius ReferenceFrames →
        RoundDouble (∑ t in Finset.Ico (CurrentSceneStartIndex Radius ReferenceFrames) k,
            (ReferenceFrames t).PlaneStatsAverage)
          = ∑ t in Finset.Ico (CurrentSceneStartIndex Radius ReferenceFrames) k,
            (ReferenceFrames t).PlaneStatsAverage) →
      RoundDouble
          ((∑ t in Finset.Ico (CurrentSceneStartIndex Radius ReferenceFrames)
              (CurrentSceneEndIndex Radius ReferenceFrames),
            (ReferenceFrames t).PlaneStatsAverage)
          / ((CurrentSceneEndIndex Radius ReferenceFrames
              - CurrentSceneStartIndex Radius ReferenceFrames : Int) : α))
        = (∑ t in Finset.Ico (CurrentSceneStartIndex Radius ReferenceFrames)
              (CurrentSceneEndIndex Radius ReferenceFrames),
            (ReferenceFrames t).PlaneStatsAverage)
          / ((CurrentSceneEndIndex Radius ReferenceFrames
              - CurrentSceneStartIndex Radius ReferenceFrames : Int) : α) →
      AverageIntensityOverTime RoundDouble Radius ReferenceFrames =
        (∑ t in Finset.Ico (CurrentSceneStartIndex Radius ReferenceFrames)
            (CurrentSceneEndIndex Radius ReferenceFrames),
          (ReferenceFrames t).PlaneStatsAverage)
        / ((CurrentSceneEndIndex Radius ReferenceFrames
            - CurrentSceneStartIndex Radius ReferenceFrames : Int) : α)) ∧
    (∀ ReferenceFrames : Int → Frame α,
      AverageIntensityOverTime id Radius ReferenceFrames =
        (∑ t in Finset.Ico (CurrentSceneStartIndex Radius ReferenceFrames)
            (CurrentSceneEndIndex Radius ReferenceFrames),
          (ReferenceFrames t).PlaneStatsAverage)
        / ((CurrentSceneEndIndex Radius ReferenceFrames
            - CurrentSceneStartIndex Radius ReferenceFrames : Int) : α)) ∧
      EvaluateAccumulatedIntensities RoundDouble Radius RFrames GFrames BFrames =
        (AverageIntensityOverTime RoundDouble Radius RFrames,
         AverageIntensityOverTime RoundDouble Radius GFrames,
         AverageIntensityOverTime RoundDouble Radius BFrames) := by
  refine ⟨?_, ?_, rfl⟩
  · intro ReferenceFrames hsum hquot
    exact AverageIntensityOverTime_of_exact RoundDouble Radius ReferenceFrames hsum hquot
  · intro ReferenceFrames
    exact AverageIntensityOverTime_of_exact id Radius ReferenceFrames
      (fun _ _ _ => rfl) rfl

end WindowClaims

section CopyLemmas

variable {α : Type}

/-- A copy leaves every allocated frame as it was, and the new address holds the
contents of the source. -/
theorem CopyFrame_spec (Memory : FrameMemory α) (Source : Nat) :
    (CopyFrame Memory Source).2 = Memory.Next ∧
      (CopyFrame Memory Source).1.Next = Memory.Next + 1 ∧
      (CopyFrame Memory Source).1.Frames Memory.Next = Memory.Frames Source ∧
      ∀ Address, Address < Memory.Next →
        (CopyFrame Memory Source).1.Frames Address = Memory.Frames Address := by
  refine ⟨rfl, rfl, by simp [CopyFrame], ?_⟩
  intro Address h
  have : Address ≠ Memory.Next := by omega
  simp [CopyFrame, this]

/-- The three copies of lines 51-53: the components get three fresh, distinct
addresses holding the contents of the three anchor frames, and every frame
allocated before is as it was. -/
theorem three_copies (Memory : FrameMemory α) (RFrame GFrame BFrame : Nat)
    (hR : RFrame < Memory.Next) (hG : GFrame < Memory.Next) (hB : BFrame < Memory.Next) :
    (CopyFrame (CopyFrame (CopyFrame Memory RFrame).1 GFrame).1 BFrame).1.Frames Memory.Next
        = Memory.Frames RFrame ∧
      (CopyFrame (CopyFrame (CopyFrame Memory RFrame).1 GFrame).1 BFrame).1.Frames
          (Memory.Next + 1) = Memory.Frames GFrame ∧
      (CopyFrame (CopyFrame (CopyFrame Memory RFrame).1 GFrame).1 BFrame).1.Frames
          (Memory.Next + 1 + 1) = Memory.Frames BFrame ∧
      ∀ Address, Address < Memory.Next →
        (CopyFrame (CopyFrame (CopyFrame Memory RFrame).1 GFrame).1 BFrame).1.Frames Address
          = Memory.Frames Address := by
  have h1 : Memory.Next ≠ Memory.Next + 1 := by omega
  have h2 : Memory.Next ≠ Memory.Next + 1 + 1 := by omega
  have h3 : Memory.Next + 1 ≠ Memory.Next + 1 + 1 := by omega
  have hR' : RFrame ≠ Memory.Next := by omega
  have hG' : GFrame ≠ Memory.Next := by omega
  have hB' : BFrame ≠ Memory.Next := by omega
  have hB'' : BFrame ≠ Memory.Next + 1 := by omega
  refine ⟨by simp [CopyFrame, h1, h2], by simp [CopyFrame, h3, hG'],
    by simp [CopyFrame, hB', hB''], ?_⟩
  intro Address h
  have a1 : Address ≠ Memory.Next := by omega
  have a2 : Address ≠ Memory.Next + 1 := by omega
  have a3 : Address ≠ Memory.Next + 1 + 1 := by omega
  simp [CopyFrame, a1, a2, a3]

end CopyLemmas

section PixelLemmas

variable {α : Type} [LinearOrderedField α]

theorem mem_Range1_nonneg (n t : Int) (hn : 0 ≤ n) : t ∈ Range1 n ↔ 0 ≤ t ∧ t < n := by
  unfold Range1
  simp only [hn, if_true, List.mem_map, List.mem_range]
  constructor
  · rintro ⟨i, hi, rfl⟩
    omega
  · rintro ⟨h1, h2⟩
    refine ⟨t.toNat, ?_, ?_⟩ <;> omega

theorem Range1_nodup (n : Int) : (Range1 n).Nodup := by
  unfold Range1
  split
  · apply List.Nodup.map _ (List.nodup_range _)
    intro i j hij
    simpa using hij
  · apply List.Nodup.map _ (List.nodup_range _)
    intro i j hij
    simpa using hij

/-- One row of the pixel loop on one plane: the samples of row `y` at the
columns of `xs` are scaled and stored once, the others are kept. -/
theorem Plane_row (Store : α → α) (g : α) (y : Int) :
    ∀ (xs : List Int) (P : Plane α), xs.Nodup →
      (xs.foldl (fun P x => P.Scale Store y x g) P).Height = P.Height ∧
      (xs.foldl (fun P x => P.Scale Store y x g) P).Width = P.Width ∧
      ∀ y' x', (xs.foldl (fun P x => P.Scale Store y x g) P).Pixels y' x' =
        if y' = y ∧ x' ∈ xs then Store (P.Pixels y' x' * g) else P.Pixels y' x' := by
  intro xs
  induction xs with
  | nil => intro P _; simp
  | cons x xs ih =>
    intro P hnd
    obtain ⟨hx, hnd2⟩ := List.nodup_cons.mp hnd
    obtain ⟨h1, h2, h3⟩ := ih (P.Scale Store y x g) hnd2
    rw [List.foldl_cons]
    refine ⟨h1, h2, ?_⟩
    intro y' x'
    rw [h3]
    by_cases hy : y' = y
    · subst hy
      by_cases hxx : x' = x
      · subst hxx
        simp [hx, Plane.Scale]
      · by_cases hmem : x' ∈ xs <;> simp [hxx, hmem, Plane.Scale]
    · simp [hy, Plane.Scale]

/-- The two nested loops on one plane: the samples at the rows of `ys` and the
columns of `xs` are scaled and stored once, the others are kept. -/
theorem Plane_all (Store : α → α) (g : α) (xs : List Int) (hxs : xs.Nodup) :
    ∀ (ys : List Int) (P : Plane α), ys.Nodup →
      (ys.foldl (fun P y => xs.foldl (fun P x => P.Scale Store y x g) P) P).Height
        = P.Height ∧
      (ys.foldl (fun P y => xs.foldl (fun P x => P.Scale Store y x g) P) P).Width
        = P.Width ∧
      ∀ y' x',
        (ys.foldl (fun P y => xs.foldl (fun P x => P.Scale Store y x g) P) P).Pixels y' x' =
        if y' ∈ ys ∧ x' ∈ xs then Store (P.Pixels y' x' * g) else P.Pixels y' x' := by
  intro ys
  induction ys with
  | nil => intro P _; simp
  | cons y ys ih =>
    intro P hnd
    obtain ⟨hy, hnd2⟩ := List.nodup_cons.mp hnd
    obtain ⟨r1, r2, r3⟩ := Plane_row Store g y xs P hxs
    obtain ⟨h1, h2, h3⟩ := ih (xs.foldl (fun P x => P.Scale Store y x g) P) hnd2
    rw [List.foldl_cons]
    refine ⟨h1.trans r1, h2.trans r2, ?_⟩
    intro y' x'
    rw [h3, r3]
    by_cases hyy : y' = y
    · subst hyy
      by_cases hmem : x' ∈ xs <;> simp [hy, hmem]
    · by_cases hmem : y' ∈ ys <;> simp [hyy, hmem]

/-- The body of the loop on three distinct components: plane `0` of each is
scaled at `(y, x)` by its own correction, and no other frame is written. -/
theorem LoopBody_frames (Store : α → α) (Correction : α × α × α) (cR cG cB : Nat)
    (hRG : cR ≠ cG) (hRB : cR ≠ cB) (hGB : cG ≠ cB) (Memory : FrameMemory α) (y x : Int) :
    ((LoopBody Store Correction cR cG cB Memory y x).Frames cR).Plane0
        = (Memory.Frames cR).Plane0.Scale Store y x Correction.1 ∧
      ((LoopBody Store Correction cR cG cB Memory y x).Frames cG).Plane0
        = (Memory.Frames cG).Plane0.Scale Store y x Correction.2.1 ∧
      ((LoopBody Store Correction cR cG cB Memory y x).Frames cB).Plane0
        = (Memory.Frames cB).Plane0.Scale Store y x Correction.2.2 ∧
      ∀ Address, Address ≠ cR → Address ≠ cG → Address ≠ cB →
        (LoopBody Store Correction cR cG cB Memory y x).Frames Address
          = Memory.Frames Address := by
  refine ⟨?_, ?_, ?_, ?_⟩
  · simp [LoopBody, ScaleSample, hRG, hRB]
  · simp [LoopBody, ScaleSample, hGB, hRG.symm]
  · simp [LoopBody, ScaleSample, hRB.symm, hGB.symm]
  · intro Address h1 h2 h3
    simp [LoopBody, ScaleSample, h1, h2, h3]

/-- The body of the loop keeps the width of plane `0` of every frame. -/
theorem LoopBody_width (Store : α → α) (Correction : α × α × α) (cR cG cB : Nat)
    (Memory : FrameMemory α) (y x : Int) (Address : Nat) :
    ((LoopBody Store Correction cR cG cB Memory y x).Frames Address).Plane0.Width
      = (Memory.Frames Address).Plane0.Width := by
  simp only [LoopBody, ScaleSample]
  split_ifs <;> simp_all [Plane.Scale]

/-- A projection of the memory that the loop body transforms by `step` is
transformed by the whole pixel loop as by the two nested loops of `step`. -/
theorem PixelLoop_proj {β : Type} (Store : α → α) (Correction : α × α × α)
    (cR cG cB : Nat) (φ : FrameMemory α → β) (step : β → Int → Int → β)
    (hφ : ∀ m y x, φ (LoopBody Store Correction cR cG cB m y x) = step (φ m) y x)
    (Memory : FrameMemory α) :
    φ (PixelLoop Store Correction cR cG cB Memory) =
      (Range1 (Memory.Frames cR).Plane0.Height).foldl
        (fun b y => (Range1 (Memory.Frames cR).Plane0.Width).foldl (fun b x => step b y x) b)
        (φ Memory) := by
  unfold PixelLoop
  have inner : ∀ (y : Int) (xs : List Int) (m : FrameMemory α),
      φ (xs.foldl (fun m x => LoopBody Store Correction cR cG cB m y x) m)
        = xs.foldl (fun b x => step b y x) (φ m) := by
    intro y xs m
    exact (List.foldl_hom φ (fun m x => LoopBody Store Correction cR cG cB m y x)
      (fun b x => step b y x) xs m (fun m x => (hφ m y x).symm)).symm
  have width : ∀ (y : Int) (xs : List Int) (m : FrameMemory α),
      ((xs.foldl (fun m x => LoopBody Store Correction cR cG cB m y x) m).Frames
          cR).Plane0.Width = (m.Frames cR).Plane0.Width := by
    intro y xs
    induction xs with
    | nil => intro m; rfl
    | cons x xs ih => intro m; rw [List.foldl_cons, ih, LoopBody_width]
  generalize hW : (Memory.Frames cR).Plane0.Width = W
  generalize Range1 (Memory.Frames cR).Plane0.Height = ys
  induction ys generalizing Memory with
  | nil => rfl
  | cons y ys ih =>
    rw [List.foldl_cons, List.foldl_cons, ih _ (by rw [width, hW]), hW]
    congr 1
    exact inner y (Range1 W) Memory

theorem foldl_keep {β γ : Type} (l : List γ) (b : β) : l.foldl (fun b _ => b) b = b := by
  induction l with
  | nil => rfl
  | cons x xs ih => rw [List.foldl_cons, ih]

/-- The pixel loop leaves alone whatever the loop body leaves alone. -/
theorem PixelLoop_keep {β : Type} (Store : α → α) (Correction : α × α × α)
    (cR cG cB : Nat) (φ : FrameMemory α → β)
    (hφ : ∀ m y x, φ (LoopBody Store Correction cR cG cB m y x) = φ m)
    (Memory : FrameMemory α) :
    φ (PixelLoop Store Correction cR cG cB Memory) = φ Memory := by
  rw [PixelLoop_proj Store Correction cR cG cB φ (fun b _ _ => b) hφ Memory]
  simp only [foldl_keep]

/-- The pixel loop on one plane that the loop body scales by `g`: the dimensions
are kept and the samples of the `H × W` grid of `ComponentR` are scaled by `g`
and stored. -/
theorem PixelLoop_plane (Store : α → α) (Correction : α × α × α) (cR cG cB : Nat)
    (φ : FrameMemory α → Plane α) (g : α)
    (hφ : ∀ m y x,
      φ (LoopBody Store Correction cR cG cB m y x) = (φ m).Scale Store y x g)
    (Memory : FrameMemory α) :
    (φ (PixelLoop Store Correction cR cG cB Memory)).Height = (φ Memory).Height ∧
      (φ (PixelLoop Store Correction cR cG cB Memory)).Width = (φ Memory).Width ∧
      ∀ y x, 0 ≤ y → y < (Memory.Frames cR).Plane0.Height →
        0 ≤ x → x < (Memory.Frames cR).Plane0.Width →
        (φ (PixelLoop Store Correction cR cG cB Memory)).Pixels y x
          = Store ((φ Memory).Pixels y x * g) := by
  rw [PixelLoop_proj Store Correction cR cG cB φ (fun P y x => P.Scale Store y x g) hφ
    Memory]
  obtain ⟨h1, h2, h3⟩ := Plane_all Store g (Range1 (Memory.Frames cR).Plane0.Width)
    (Range1_nodup _) (Range1 (Memory.Frames cR).Plane0.Height) (φ Memory) (Range1_nodup _)
  refine ⟨h1, h2, ?_⟩
  intro y x hy1 hy2 hx1 hx2
  rw [h3]
  have hy : y ∈ Range1 (Memory.Frames cR).Plane0.Height :=
    (mem_Range1_nonneg _ y (by omega)).mpr ⟨hy1, hy2⟩
  have hx : x ∈ Range1 (Memory.Frames cR).Plane0.Width :=
    (mem_Range1_nonneg _ x (by omega)).mpr ⟨hx1, hx2⟩
  simp [hy, hx]

/-- What `ApplyCorrections` leaves behind, in one statement: the three components
sit at the three addresses allocated by the copies; plane `0` of each keeps the
dimensions of its anchor frame and holds, on the grid of `ComponentR`, the
stored products; every frame allocated before the call is as it was. -/
theorem ApplyCorrections_spec (Store : α → α) (Correction : α × α × α)
    (Memory : FrameMemory α) (RFrame GFrame BFrame : Nat)
    (hR : RFrame < Memory.Next) (hG : GFrame < Memory.Next) (hB : BFrame < Memory.Next) :
    ((ProcessedFrame (ApplyCorrections Store Correction Memory RFrame GFrame BFrame)).1.Height
        = (Memory.Frames RFrame).Plane0.Height ∧
      (ProcessedFrame (ApplyCorrections Store Correction Memory RFrame GFrame BFrame)).1.Width
        = (Memory.Frames RFrame).Plane0.Width ∧
      (ProcessedFrame (ApplyCorrections Store Correction Memory RFrame GFrame BFrame)).2.1.Height
        = (Memory.Frames GFrame).Plane0.Height ∧
      (ProcessedFrame (ApplyCorrections Store Correction Memory RFrame GFrame BFrame)).2.1.Width
        = (Memory.Frames GFrame).Plane0.Width ∧
      (ProcessedFrame (ApplyCorrections Store Correction Memory RFrame GFrame BFrame)).2.2.Height
        = (Memory.Frames BFrame).Plane0.Height ∧
      (ProcessedFrame (ApplyCorrections Store Correction Memory RFrame GFrame BFrame)).2.2.Width
        = (Memory.Frames BFrame).Plane0.Width) ∧
    (∀ y x, 0 ≤ y → y < (Memory.Frames RFrame).Plane0.Height →
      0 ≤ x → x < (Memory.Frames RFrame).Plane0.Width →
      (ProcessedFrame
          (ApplyCorrections Store Correction Memory RFrame GFrame BFrame)).1.Pixels y x
        = Store ((Memory.Frames RFrame).Plane0.Pixels y x * Correction.1) ∧
      (ProcessedFrame
          (ApplyCorrections Store Correction Memory RFrame GFrame BFrame)).2.1.Pixels y x
        = Store ((Memory.Frames GFrame).Plane0.Pixels y x * Correction.2.1) ∧
      (ProcessedFrame
          (ApplyCorrections Store Correction Memory RFrame GFrame BFrame)).2.2.Pixels y x
        = Store ((Memory.Frames BFrame).Plane0.Pixels y x * Correction.2.2)) ∧
    (∀ Address, Address < Memory.Next →
      (ApplyCorrections Store Correction Memory RFrame GFrame BFrame).Memory.Frames Address
        = Memory.Frames Address) := by
  obtain ⟨c1, c2, c3, c4⟩ := three_copies Memory RFrame GFrame BFrame hR hG hB
  have hRG : Memory.Next ≠ Memory.Next + 1 := by omega
  have hRB : Memory.Next ≠ Memory.Next + 1 + 1 := by omega
  have hGB : Memory.Next + 1 ≠ Memory.Next + 1 + 1 := by omega
  obtain ⟨r1, r2, r3⟩ := PixelLoop_plane Store Correction Memory.Next (Memory.Next + 1)
    (Memory.Next + 1 + 1) (fun m => (m.Frames Memory.Next).Plane0) Correction.1
    (fun m y x => (LoopBody_frames Store Correction _ _ _ hRG hRB hGB m y x).1)
    (CopyFrame (CopyFrame (CopyFrame Memory RFrame).1 GFrame).1 BFrame).1
  obtain ⟨g1, g2, g3⟩ := PixelLoop_plane Store Correction Memory.Next (Memory.Next + 1)
    (Memory.Next + 1 + 1) (fun m => (m.Frames (Memory.Next + 1)).Plane0) Correction.2.1
    (fun m y x => (LoopBody_frames Store Correction _ _ _ hRG hRB hGB m y x).2.1)
    (CopyFrame (CopyFrame (CopyFrame Memory RFrame).1 GFrame).1 BFrame).1
  obtain ⟨b1, b2, b3⟩ := PixelLoop_plane Store Correction Memory.Next (Memory.Next + 1)
    (Memory.Next + 1 + 1) (fun m => (m.Frames (Memory.Next + 1 + 1)).Plane0) Correction.2.2
    (fun m y x => (LoopBody_frames Store Correction _ _ _ hRG hRB hGB m y x).2.2.1)
    (CopyFrame (CopyFrame (CopyFrame Memory RFrame).1 GFrame).1 BFrame).1
  simp only [c1, c2, c3] at r1 r2 r3 g1 g2 g3 b1 b2 b3
  refine ⟨⟨r1, r2, g1, g2, b1, b2⟩, ?_, ?_⟩
  · intro y x hy1 hy2 hx1 hx2
    exact ⟨r3 y x hy1 hy2 hx1 hx2, g3 y x hy1 hy2 hx1 hx2, b3 y x hy1 hy2 hx1 hx2⟩
  · intro Address h
    have hkeep := PixelLoop_keep Store Correction Memory.Next (Memory.Next + 1)
      (Memory.Next + 1 + 1) (fun m => m.Frames Address)
      (fun m y x => (LoopBody_frames Store Correction _ _ _ hRG hRB hGB m y x).2.2.2
        Address (by omega) (by omega) (by omega))
      (CopyFrame (CopyFrame (CopyFrame Memory RFrame).1 GFrame).1 BFrame).1
    exact hkeep.trans (c4 Address h)

end PixelLemmas

section PixelClaims

variable {α : Type} [LinearOrderedField α]

/-- C6 (as amended): for allocated anchor frames whose planes share the height
`H` and the width `W` and for every triple of corrections, the three output
planes have height `H` and width `W`; the output sample of each channel at every
`0 ≤ y < H`, `0 ≤ x < W` is what `float *= double` stores (`Store`: the product
rounded to `double`, then to `float`) for the product of the anchor frame's
input sample of that channel at `(y, x)` and that channel's correction, so it
depends on no other sample and no other channel, and it is the exact product
whenever the store does not round it; every frame allocated before the call, the
three anchor frames among them, is unchanged, since the writes go to fresh
copies; the anchor frames `DrawFrame` uses are those at offset `0` of the three
windows. -/
theorem pixel_applicator (Store : α → α) (Correction : α × α × α)
    (Memory : FrameMemory α) (RFrame GFrame BFrame : Nat) (H W : Int)
    (hAlloc : RFrame < Memory.Next ∧ GFrame < Memory.Next ∧ BFrame < Memory.Next)
    (hR : (Memory.Frames RFrame).Plane0.Height = H ∧ (Memory.Frames RFrame).Plane0.Width = W)
    (hG : (Memory.Frames GFrame).Plane0.Height = H ∧ (Memory.Frames GFrame).Plane0.Width = W)
    (hB : (Memory.Frames BFrame).Plane0.Height = H ∧ (Memory.Frames BFrame).Plane0.Width = W) :
    ((ProcessedFrame (ApplyCorrections Store Correction Memory RFrame GFrame BFrame)).1.Height
        = H ∧
      (ProcessedFrame (ApplyCorrections Store Correction Memory RFrame GFrame BFrame)).1.Width
        = W ∧
      (ProcessedFrame (ApplyCorrections Store Correction Memory RFrame GFrame BFrame)).2.1.Height
        = H ∧
      (ProcessedFrame (ApplyCorrections Store Correction Memory RFrame GFrame BFrame)).2.1.Width
        = W ∧
      (ProcessedFrame (ApplyCorrections Store Correction Memory RFrame GFrame BFrame)).2.2.Height
        = H ∧
      (ProcessedFrame (ApplyCorrections Store Correction Memory RFrame GFrame BFrame)).2.2.Width
        = W) ∧
    (∀ y x, 0 ≤ y → y < H → 0 ≤ x → x < W →
      (ProcessedFrame
          (ApplyCorrections Store Correction Memory RFrame GFrame BFrame)).1.Pixels y x
        = Store ((Memory.Frames RFrame).Plane0.Pixels y x * Correction.1) ∧
      (ProcessedFrame
          (ApplyCorrections Store Correction Memory RFrame GFrame BFrame)).2.1.Pixels y x
        = Store ((Memory.Frames GFrame).Plane0.Pixels y x * Correction.2.1) ∧
      (ProcessedFrame
          (ApplyCorrections Store Correction Memory RFrame GFrame BFrame)).2.2.Pixels y x
        = Store ((Memory.Frames BFrame).Plane0.Pixels y x * Correction.2.2)) ∧
    (∀ Address, Address < Memory.Next →
      (ApplyCorrections Store Correction Memory RFrame GFrame BFrame).Memory.Frames Address
        = Memory.Frames Address) ∧
    (∀ (RoundDouble sqrt : α → α) (Radius : Int) (RFrames GFrames BFrames : Int → Nat),
      (∀ t, RFrames t < Memory.Next ∧ GFrames t < Memory.Next ∧ BFrames t < Memory.Next) →
      DrawFrame RoundDouble Store sqrt Radius Memory RFrames GFrames BFrames =
        ApplyCorrections Store
          (Corrections sqrt
            (EvaluateAccumulatedIntensities RoundDouble Radius
              (fun t => Memory.Frames (RFrames t)) (fun t => Memory.Frames (GFrames t))
              (fun t => Memory.Frames (BFrames t))).1
            (EvaluateAccumulatedIntensities RoundDouble Radius
              (fun t => Memory.Frames (RFrames t)) (fun t => Memory.Frames (GFrames t))
              (fun t => Memory.Frames (BFrames t))).2.1
            (EvaluateAccumulatedIntensities RoundDouble Radius
              (fun t => Memory.Frames (RFrames t)) (fun t => Memory.Frames (GFrames t))
              (fun t => Memory.Frames (BFrames t))).2.2)
          Memory (RFrames 0) (GFrames 0) (BFrames 0)) := by
  obtain ⟨⟨d1, d2, d3, d4, d5, d6⟩, hpix, hkeep⟩ :=
    ApplyCorrections_spec Store Correction Memory RFrame GFrame BFrame
      hAlloc.1 hAlloc.2.1 hAlloc.2.2
  refine ⟨⟨d1.trans hR.1, d2.trans hR.2, d3.trans hG.1, d4.trans hG.2, d5.trans hB.1,
    d6.trans hB.2⟩, ?_, hkeep, ?_⟩
  · intro y x hy1 hy2 hx1 hx2
    rw [← hR.1] at hy2
    rw [← hR.2] at hx2
    exact hpix y x hy1 hy2 hx1 hx2
  · intro RoundDouble sqrt Radius RFrames GFrames BFrames hwin
    obtain ⟨_, _, _, c4⟩ := three_copies Memory (RFrames 0) (GFrames 0) (BFrames 0)
      (hwin 0).1 (hwin 0).2.1 (hwin 0).2.2
    have eR : (fun t => (CopyFrame (CopyFrame (CopyFrame Memory (RFrames 0)).1
        (GFrames 0)).1 (BFrames 0)).1.Frames (RFrames t))
        = fun t => Memory.Frames (RFrames t) := funext (fun t => c4 _ (hwin t).1)
    have eG : (fun t => (CopyFrame (CopyFrame (CopyFrame Memory (RFrames 0)).1
        (GFrames 0)).1 (BFrames 0)).1.Frames (GFrames t))
        = fun t => Memory.Frames (GFrames t) := funext (fun t => c4 _ (hwin t).2.1)
    have eB : (fun t => (CopyFrame (CopyFrame (CopyFrame Memory (RFrames 0)).1
        (GFrames 0)).1 (BFrames 0)).1.Frames (BFrames t))
        = fun t => Memory.Frames (BFrames t) := funext (fun t => c4 _ (hwin t).2.2)
    unfold DrawFrame ApplyCorrections
    simp only [eR, eG, eB]

theorem pixel_applicator_witness :
    ((0 : Nat) < SampleMemory.Next ∧ (1 : Nat) < SampleMemory.Next ∧
      (2 : Nat) < SampleMemory.Next) ∧
    ((SampleMemory.Frames 0).Plane0.Height = 2 ∧ (SampleMemory.Frames 0).Plane0.Width = 3) ∧
    ((ProcessedFrame (ApplyCorrections StoreSingle ((2 : ℚ), (3 : ℚ), (5 : ℚ))
        SampleMemory 0 1 2)).1.Pixels 1 2
        = StoreSingle ((SampleMemory.Frames 0).Plane0.Pixels 1 2 * 2) ∧
      (ProcessedFrame (ApplyCorrections StoreSingle ((2 : ℚ), (3 : ℚ), (5 : ℚ))
        SampleMemory 0 1 2)).2.1.Pixels 1 2
        = StoreSingle ((SampleMemory.Frames 1).Plane0.Pixels 1 2 * 3) ∧
      (ProcessedFrame (ApplyCorrections StoreSingle ((2 : ℚ), (3 : ℚ), (5 : ℚ))
        SampleMemory 0 1 2)).2.2.Pixels 1 2
        = StoreSingle ((SampleMemory.Frames 2).Plane0.Pixels 1 2 * 5)) :=
  ⟨⟨by decide, by decide, by decide⟩, ⟨rfl, rfl⟩,
    (pixel_applicator StoreSingle ((2 : ℚ), (3 : ℚ), (5 : ℚ)) SampleMemory 0 1 2 2 3
      ⟨by decide, by decide, by decide⟩ ⟨rfl, rfl⟩ ⟨rfl, rfl⟩ ⟨rfl, rfl⟩).2.1 1 2
      (by decide) (by decide) (by decide) (by decide)⟩

end PixelClaims

section ConstructionClaims

/-- C9: construction fails exactly when the clip lacks constant format, lacks
constant dimensions, is not single precision, is not RGB, or the supplied radius
is negative; otherwise it succeeds with `Radius` the supplied radius, or `0`
when none is supplied; and whenever the clip is invalid the error is
"only RGBS input supported.", whatever the radius. -/
theorem construction_validation (Arguments : Arguments) :
    ((∃ Message, AutoBalance.Construct Arguments = Except.error Message) ↔
      (Arguments.clip.WithConstantFormat = false ∨
        Arguments.clip.WithConstantDimensions = false ∨
        Arguments.clip.IsSinglePrecision = false ∨
        Arguments.clip.IsRGB = false ∨
        ∃ Value, Arguments.radius = some Value ∧ Value < 0)) ∧
    (¬ (Arguments.clip.WithConstantFormat = false ∨
        Arguments.clip.WithConstantDimensions = false ∨
        Arguments.clip.IsSinglePrecision = false ∨
        Arguments.clip.IsRGB = false ∨
        ∃ Value, Arguments.radius = some Value ∧ Value < 0) →
      AutoBalance.Construct Arguments
        = Except.ok { Radius := Arguments.radius.getD 0 }) ∧
    ((Arguments.clip.WithConstantFormat = false ∨
        Arguments.clip.WithConstantDimensions = false ∨
        Arguments.clip.IsSinglePrecision = false ∨
        Arguments.clip.IsRGB = false) →
      AutoBalance.Construct Arguments = Except.error "only RGBS input supported.") := by
  obtain ⟨⟨f, d, p, c⟩, r⟩ := Arguments
  cases f <;> cases d <;> cases p <;> cases c <;> cases r <;>
    simp [AutoBalance.Construct]
  rename_i Value
  by_cases h : Value < 0 <;> simp [h]

end ConstructionClaims

section ScenarioLemmas

theorem Range2_scenario : Range2 (-1) (1 + 1) = [-1, 0, 1] := by decide

end ScenarioLemmas

section ScenarioClaims

end ScenarioClaims

section GainClaims

/-- C1 (as amended): whenever the largest of the three intensities is at least
`1e-40 = Epsilon ^ 2` (so in particular for strictly positive intensities with
such a maximum), the corrections computed by `DrawFrame` have root mean square
exactly one. -/
theorem rms_eq_one_of_max_ge (IR IG IB : ℝ)
    (hM : 1 / 10 ^ 40 ≤ MaxIntensity IR IG IB) :
    RootMeanSquare Real.sqrt (Corrections Real.sqrt IR IG IB) = 1 := by
  unfold Corrections
  exact RootMeanSquare_normalized _ _ _ (Epsilon_le_NormalizationFactor IR IG IB hM)

theorem rms_eq_one_of_max_ge_witness :
    (1 : ℝ) / 10 ^ 40 ≤ MaxIntensity 1 2 3 ∧
      RootMeanSquare Real.sqrt (Corrections Real.sqrt 1 2 3) = 1 :=
  ⟨by norm_num [MaxIntensity], rms_eq_one_of_max_ge 1 2 3 (by norm_num [MaxIntensity])⟩

/-- C1 fails as stated: the strictly positive intensities
`IR = IG = IB = 1e-50` give corrections whose root mean square is `1e-10`,
not one. -/
theorem rms_ne_one_tiny :
    (0 : ℝ) < 1 / 10 ^ 50 ∧
      RootMeanSquare Real.sqrt
        (Corrections Real.sqrt (1 / 10 ^ 50) (1 / 10 ^ 50) (1 / 10 ^ 50)) = 1 / 10 ^ 10 ∧
      RootMeanSquare Real.sqrt
        (Corrections Real.sqrt (1 / 10 ^ 50) (1 / 10 ^ 50) (1 / 10 ^ 50)) ≠ 1 := by
  have h : RootMeanSquare Real.sqrt
      (Corrections Real.sqrt (1 / 10 ^ 50) (1 / 10 ^ 50) (1 / 10 ^ 50)) = 1 / 10 ^ 10 := by
    rw [Corrections_same_tiny _ (by norm_num) (by norm_num), RootMeanSquare_same]
    unfold Epsilon
    norm_num [abs_of_pos]
  refine ⟨by norm_num, h, ?_⟩
  rw [h]; norm_num

/-- C2 (as amended): for every `I ≥ 1e-40 = Epsilon ^ 2`, the corrections
computed from `IR = IG = IB = I` are `(1, 1, 1)`. -/
theorem balanced_unchanged (I : ℝ) (hI : 1 / 10 ^ 40 ≤ I) :
    Corrections Real.sqrt I I I = (1, 1, 1) := by
  have hε : (0 : ℝ) < Epsilon := Epsilon_pos
  have hIpos : 0 < I := lt_of_lt_of_le (by norm_num) hI
  have hq : 0 < I / max I Epsilon := div_pos hIpos (max_Epsilon_pos I)
  have hN := Epsilon_le_NormalizationFactor I I I (by rw [MaxIntensity_same]; exact hI)
  rw [MaxIntensity_same, NormalizationFactor_same] at hN
  unfold RawCorrection at hN
  rw [Corrections_same, max_eq_left hN, abs_of_pos hq, div_self (ne_of_gt hq)]

theorem balanced_unchanged_witness :
    (1 : ℝ) / 10 ^ 40 ≤ 1 / 2 ∧ Corrections Real.sqrt (1 / 2 : ℝ) (1 / 2) (1 / 2) = (1, 1, 1) :=
  ⟨by norm_num, balanced_unchanged (1 / 2) (by norm_num)⟩

/-- C2 fails as stated: `I = 1e-60 > 0` gives the three corrections `1e-20`,
not `1`. -/
theorem balanced_tiny_changed :
    (0 : ℝ) < 1 / 10 ^ 60 ∧
      Corrections Real.sqrt (1 / 10 ^ 60 : ℝ) (1 / 10 ^ 60) (1 / 10 ^ 60)
        = (1 / 10 ^ 20, 1 / 10 ^ 20, 1 / 10 ^ 20) ∧
      Corrections Real.sqrt (1 / 10 ^ 60 : ℝ) (1 / 10 ^ 60) (1 / 10 ^ 60) ≠ (1, 1, 1) := by
  have h : Corrections Real.sqrt (1 / 10 ^ 60 : ℝ) (1 / 10 ^ 60) (1 / 10 ^ 60)
      = (1 / 10 ^ 20, 1 / 10 ^ 20, 1 / 10 ^ 20) := by
    rw [Corrections_same_tiny _ (by norm_num) (by norm_num)]
    unfold Epsilon
    norm_num
  refine ⟨by norm_num, h, ?_⟩
  rw [h]
  intro hc
  have := congrArg Prod.fst hc
  norm_num at this

/-- C8: on `IR = IG = IB = 0` the three divisors `max(0, Epsilon)` of lines 82-84
and the divisor `max(NormalizationFactor, Epsilon)` of lines 86-88 all equal
`Epsilon > 0` (no division by zero), and the three corrections are equal (all
are `0`). -/
theorem zero_input :
    (0 : ℝ) < Epsilon ∧ max (0 : ℝ) Epsilon = Epsilon ∧
      max (NormalizationFactor Real.sqrt
            (RawCorrection (MaxIntensity (0 : ℝ) 0 0) 0)
            (RawCorrection (MaxIntensity (0 : ℝ) 0 0) 0)
            (RawCorrection (MaxIntensity (0 : ℝ) 0 0) 0)) Epsilon = Epsilon ∧
      Corrections Real.sqrt (0 : ℝ) 0 0 = (0, 0, 0) ∧
      (Corrections Real.sqrt (0 : ℝ) 0 0).1 = (Corrections Real.sqrt (0 : ℝ) 0 0).2.1 ∧
      (Corrections Real.sqrt (0 : ℝ) 0 0).2.1 = (Corrections Real.sqrt (0 : ℝ) 0 0).2.2 := by
  have hε : (0 : ℝ) < Epsilon := Epsilon_pos
  have hC : Corrections Real.sqrt (0 : ℝ) 0 0 = (0, 0, 0) := by
    rw [Corrections_same]; simp
  refine ⟨hε, max_eq_right (le_of_lt hε), ?_, hC, by rw [hC], by rw [hC]⟩
  rw [NormalizationFactor_same, MaxIntensity_same]
  simp [RawCorrection, le_of_lt hε]

/-- C10 (as amended): when the largest of the three intensities is non-negative
(in particular when no intensity is negative), each of the three corrections is
non-negative. -/
theorem Corrections_nonneg (IR IG IB : ℝ) (hM : 0 ≤ MaxIntensity IR IG IB) :
    0 ≤ (Corrections Real.sqrt IR IG IB).1 ∧
      0 ≤ (Corrections Real.sqrt IR IG IB).2.1 ∧
      0 ≤ (Corrections Real.sqrt IR IG IB).2.2 := by
  have hraw : ∀ I : ℝ, 0 ≤ RawCorrection (MaxIntensity IR IG IB) I := fun I =>
    div_nonneg hM (le_of_lt (max_Epsilon_pos I))
  unfold Corrections
  exact ⟨div_nonneg (hraw IR) (le_of_lt (max_Epsilon_pos _)),
    div_nonneg (hraw IG) (le_of_lt (max_Epsilon_pos _)),
    div_nonneg (hraw IB) (le_of_lt (max_Epsilon_pos _))⟩

theorem Corrections_nonneg_witness :
    (0 : ℝ) ≤ MaxIntensity (-1) 0 2 ∧
      0 ≤ (Corrections Real.sqrt (-1 : ℝ) 0 2).1 ∧
      0 ≤ (Corrections Real.sqrt (-1 : ℝ) 0 2).2.1 ∧
      0 ≤ (Corrections Real.sqrt (-1 : ℝ) 0 2).2.2 :=
  ⟨by norm_num [MaxIntensity], Corrections_nonneg (-1) 0 2 (by norm_num [MaxIntensity])⟩

/-- C10 fails as stated: the intensities `IR = IG = IB = -1` give the three
corrections `-1`, which are negative. -/
theorem Corrections_negative :
    Corrections Real.sqrt (-1 : ℝ) (-1) (-1) = (-1, -1, -1) ∧
      ¬ (0 ≤ (Corrections Real.sqrt (-1 : ℝ) (-1) (-1)).1 ∧
         0 ≤ (Corrections Real.sqrt (-1 : ℝ) (-1) (-1)).2.1 ∧
         0 ≤ (Corrections Real.sqrt (-1 : ℝ) (-1) (-1)).2.2) := by
  have hε : (0 : ℝ) < Epsilon := Epsilon_pos
  have h : Corrections Real.sqrt (-1 : ℝ) (-1) (-1) = (-1, -1, -1) := by
    have hm : max (-1 : ℝ) Epsilon = Epsilon := max_eq_right (by linarith)
    have hq : |(-1 : ℝ) / Epsilon| = 1 / Epsilon := by
      rw [abs_div, abs_neg, abs_one, abs_of_pos hε]
    have hle : (Epsilon : ℝ) ≤ 1 / Epsilon := by
      rw [le_div_iff₀ hε]
      nlinarith [Epsilon_lt_one]
    have hne : (Epsilon : ℝ) ≠ 0 := ne_of_gt hε
    rw [Corrections_same, hm, hq, max_eq_left hle]
    have : (-1 : ℝ) / Epsilon / (1 / Epsilon) = -1 := by field_simp
    rw [this]
  refine ⟨h, ?_⟩
  rw [h]
  norm_num

end GainClaims

section ResolverLemmas

variable {α : Type}

/-- The loop with `break` over a descending run `a, a - 1, ..., a - n + 1` stops
at the largest offset of the run that passes the test. -/
theorem find_down_some (p : Int → Bool) :
    ∀ (n : Nat) (a t : Int),
      ((List.range n).map (fun (i : Nat) => a - (i : Int))).find? p = some t →
      a - n < t ∧ t ≤ a ∧ p t = true ∧ ∀ u, t < u → u ≤ a → p u = false := by
  intro n
  induction n with
  | zero =>
    intro a t h
    simp at h
  | succ n ih =>
    intro a t h
    have hl : (List.range (n + 1)).map (fun (i : Nat) => a - (i : Int))
        = a :: (List.range n).map (fun (i : Nat) => (a - 1) - (i : Int)) := by
      rw [List.range_succ_eq_map, List.map_cons, List.map_map]
      simp only [Nat.cast_zero, sub_zero, List.cons.injEq, true_and]
      apply List.map_congr_left
      intro i _
      simp only [Function.comp_apply, Nat.cast_succ]
      ring
    rw [hl] at h
    by_cases hp : p a = true
    · rw [List.find?_cons_of_pos _ hp] at h
      have hat : a = t := by simpa using h
      subst hat
      refine ⟨by push_cast; omega, le_refl _, hp, ?_⟩
      intro u h1 h2
      omega
    · rw [List.find?_cons_of_neg _ hp] at h
      obtain ⟨h1, h2, h3, h4⟩ := ih (a - 1) t h
      refine ⟨by push_cast; omega, by omega, h3, ?_⟩
      intro u hu1 hu2
      by_cases hua : u = a
      · subst hua; simpa using hp
      · exact h4 u hu1 (by omega)

/-- The first loop, over `Range{ -Radius }`, stops at the largest tagged offset
of `[-Radius, -1]`. -/
theorem find_Range1_neg_some (p : Int → Bool) (Radius t : Int) (hR : 0 ≤ Radius)
    (h : (Range1 (-Radius)).find? p = some t) :
    -Radius ≤ t ∧ t ≤ -1 ∧ p t = true ∧ ∀ u, t < u → u ≤ -1 → p u = false := by
  unfold Range1 at h
  by_cases h0 : Radius = 0
  · subst h0
    simp at h
  · have hneg : ¬ (0 ≤ -Radius) := by omega
    simp only [hneg, if_false, neg_neg] at h
    obtain ⟨h1, h2, h3, h4⟩ := find_down_some p Radius.toNat (-1) t h
    have hc : ((Radius.toNat : Nat) : Int) = Radius := Int.toNat_of_nonneg hR
    exact ⟨by omega, h2, h3, h4⟩

theorem find_Range1_neg_none (p : Int → Bool) (Radius : Int) (hR : 0 ≤ Radius)
    (h : (Range1 (-Radius)).find? p = none) :
    ∀ u, -Radius ≤ u → u ≤ -1 → p u = false := by
  intro u h1 h2
  have := List.find?_eq_none.mp h u ((mem_Range1_neg Radius u hR).mpr ⟨h1, h2⟩)
  simpa using this

/-- What the first loop leaves in `CurrentSceneStartIndex`: `-Radius` when no
offset of `[-Radius, -1]` is tagged `_SceneChangePrev`, and otherwise the largest
tagged offset of `[-Radius, -1]`. -/
theorem CurrentSceneStartIndex_char (Radius : Int) (hR : 0 ≤ Radius)
    (ReferenceFrames : Int → Frame α) :
    (CurrentSceneStartIndex Radius ReferenceFrames = -Radius ∧
      ∀ u, -Radius ≤ u → u ≤ -1 →
        SceneChangeTag (ReferenceFrames u).SceneChangePrev = false) ∨
    (-Radius ≤ CurrentSceneStartIndex Radius ReferenceFrames ∧
      CurrentSceneStartIndex Radius ReferenceFrames ≤ -1 ∧
      SceneChangeTag
        (ReferenceFrames (CurrentSceneStartIndex Radius ReferenceFrames)).SceneChangePrev
          = true ∧
      ∀ u, CurrentSceneStartIndex Radius ReferenceFrames < u → u ≤ -1 →
        SceneChangeTag (ReferenceFrames u).SceneChangePrev = false) := by
  unfold CurrentSceneStartIndex
  cases h : (Range1 (-Radius)).find?
      (fun t => SceneChangeTag (ReferenceFrames t).SceneChangePrev) with
  | none =>
    left
    exact ⟨rfl, find_Range1_neg_none _ Radius hR h⟩
  | some t =>
    right
    exact find_Range1_neg_some _ Radius t hR h

/-- An absent tag and a false tag both fail the test of the two loops. -/
theorem SceneChangeTag_false_of (Property : Option Bool)
    (h : Property = none ∨ Property = some false) : SceneChangeTag Property = false := by
  rcases h with h | h <;> simp [h, SceneChangeTag]

theorem find_congr_on {β : Type} (p q : β → Bool) :
    ∀ l : List β, (∀ x ∈ l, p x = q x) → l.find? p = l.find? q := by
  intro l
  induction l with
  | nil => intro _; rfl
  | cons x xs ih =>
    intro h
    have hx := h x (List.mem_cons_self x xs)
    have hxs := ih (fun y hy => h y (List.mem_cons_of_mem x hy))
    simp only [List.find?_cons, hx, hxs]

end ResolverLemmas

section ResolverClaims

variable {α : Type}

/-- C11: for every radius `R ≥ 1` and every offset `-R ≤ t ≤ -1`, if
`_SceneChangePrev` is present and true at `t` and every other tag of the window
(the other `_SceneChangePrev`, all `_SceneChangeNext`) is absent or false, the
resolved pair is `(t, R + 1)`. -/
theorem single_backward_cut (Radius t : Int) (hR : 1 ≤ Radius)
    (ht1 : -Radius ≤ t) (ht2 : t ≤ -1) (ReferenceFrames : Int → Frame α)
    (hPrev : (ReferenceFrames t).SceneChangePrev = some true)
    (hOther : ∀ u, -Radius ≤ u → u ≤ Radius → u ≠ t →
      (ReferenceFrames u).SceneChangePrev = none ∨
        (ReferenceFrames u).SceneChangePrev = some false)
    (hNext : ∀ u, -Radius ≤ u → u ≤ Radius →
      (ReferenceFrames u).SceneChangeNext = none ∨
        (ReferenceFrames u).SceneChangeNext = some false) :
    CurrentSceneStartIndex Radius ReferenceFrames = t ∧
      CurrentSceneEndIndex Radius ReferenceFrames = Radius + 1 := by
  have htag : SceneChangeTag (ReferenceFrames t).SceneChangePrev = true := by
    rw [hPrev]; rfl
  have hs : CurrentSceneStartIndex Radius ReferenceFrames = t := by
    rcases CurrentSceneStartIndex_char Radius (by omega) ReferenceFrames with
      ⟨_, hall⟩ | ⟨h1, h2, h3, _⟩
    · have := hall t ht1 ht2
      rw [htag] at this
      exact Bool.noConfusion this
    · by_contra hne
      have := SceneChangeTag_false_of _
        (hOther (CurrentSceneStartIndex Radius ReferenceFrames) h1 (by omega) hne)
      rw [h3] at this
      exact Bool.noConfusion this
  refine ⟨hs, ?_⟩
  rcases CurrentSceneEndIndex_spec Radius ReferenceFrames with ⟨he, _⟩ | ⟨u, _, h1, h2, h3, _⟩
  · exact he
  · rw [hs] at h1
    have := SceneChangeTag_false_of _ (hNext u (by omega) h2)
    rw [h3] at this
    exact Bool.noConfusion this

theorem single_backward_cut_witness :
    (PrevCutTwoBefore (-2)).SceneChangePrev = some true ∧
      CurrentSceneStartIndex 3 PrevCutTwoBefore = -2 ∧
      CurrentSceneEndIndex 3 PrevCutTwoBefore = 3 + 1 :=
  ⟨rfl, single_backward_cut 3 (-2) (by decide) (by decide) (by decide) PrevCutTwoBefore rfl
    (fun u _ _ hu => by simp [PrevCutTwoBefore, StatFrame, hu])
    (fun u _ _ => by unfold PrevCutTwoBefore; split_ifs <;> exact Or.inl rfl)⟩

/-- C12: with radius `0`, whatever the tags of the anchor frame (and of any
other frame), the resolved pair is `(0, 1)` and the reduced intensity is the
anchor frame's `PlaneStatsAverage`: in exact arithmetic (rounding `id`), and
under every rounding that leaves the anchor's value, a `double`, unchanged. -/
theorem radius_zero [LinearOrderedField α] (ReferenceFrames : Int → Frame α) :
    CurrentSceneStartIndex 0 ReferenceFrames = 0 ∧
      CurrentSceneEndIndex 0 ReferenceFrames = 1 ∧
      AverageIntensityOverTime id 0 ReferenceFrames
        = (ReferenceFrames 0).PlaneStatsAverage ∧
      (∀ RoundDouble : α → α,
        RoundDouble (ReferenceFrames 0).PlaneStatsAverage
          = (ReferenceFrames 0).PlaneStatsAverage →
        AverageIntensityOverTime RoundDouble 0 ReferenceFrames
          = (ReferenceFrames 0).PlaneStatsAverage) := by
  have hs : CurrentSceneStartIndex 0 ReferenceFrames = 0 := by
    simp [CurrentSceneStartIndex, Range1]
  have hr : Range2 0 (0 + 1) = [0] := by decide
  have he : CurrentSceneEndIndex 0 ReferenceFrames = 1 := by
    unfold CurrentSceneEndIndex
    rw [hs, hr]
    cases h : SceneChangeTag (ReferenceFrames 0).SceneChangeNext <;>
      simp [List.find?_cons, h]
  have hr2 : Range2 0 1 = [0] := by decide
  have hall : ∀ RoundDouble : α → α,
      RoundDouble (ReferenceFrames 0).PlaneStatsAverage
        = (ReferenceFrames 0).PlaneStatsAverage →
      AverageIntensityOverTime RoundDouble 0 ReferenceFrames
        = (ReferenceFrames 0).PlaneStatsAverage := by
    intro RoundDouble hfix
    simp only [AverageIntensityOverTime, hs, he, hr2]
    simp [hfix]
  exact ⟨hs, he, hall id rfl, hall⟩

/-- C13: for every radius `≥ 0` and every assignment of tags, `start < end`, so
the divisor `end - start` is a positive integer (and its value in the field is
positive), and every offset the accumulation loop reads lies in the fetched
window `[-Radius, Radius]`; so do the offsets the two scanning loops read. -/
theorem average_well_defined [LinearOrderedField α] (Radius : Int) (hR : 0 ≤ Radius)
    (ReferenceFrames : Int → Frame α) :
    CurrentSceneStartIndex Radius ReferenceFrames
        < CurrentSceneEndIndex Radius ReferenceFrames ∧
      0 < CurrentSceneEndIndex Radius ReferenceFrames
          - CurrentSceneStartIndex Radius ReferenceFrames ∧
      (0 : α) < ((CurrentSceneEndIndex Radius ReferenceFrames
          - CurrentSceneStartIndex Radius ReferenceFrames : Int) : α) ∧
      (∀ t, t ∈ Range2 (CurrentSceneStartIndex Radius ReferenceFrames)
            (CurrentSceneEndIndex Radius ReferenceFrames) →
          -Radius ≤ t ∧ t ≤ Radius) ∧
      (∀ t, t ∈ Range1 (-Radius) → -Radius ≤ t ∧ t ≤ Radius) ∧
      (∀ t, t ∈ Range2 (CurrentSceneStartIndex Radius ReferenceFrames) (Radius + 1) →
          -Radius ≤ t ∧ t ≤ Radius) := by
  obtain ⟨hs1, hs2⟩ := CurrentSceneStartIndex_spec Radius hR ReferenceFrames
  have hlt : CurrentSceneStartIndex Radius ReferenceFrames
      < CurrentSceneEndIndex Radius ReferenceFrames ∧
      CurrentSceneEndIndex Radius ReferenceFrames ≤ Radius + 1 := by
    rcases CurrentSceneEndIndex_spec Radius ReferenceFrames with
      ⟨he, _⟩ | ⟨t, he, h1, h2, _, _⟩ <;> omega
  refine ⟨hlt.1, by omega, ?_, ?_, ?_, ?_⟩
  · exact Int.cast_pos.mpr (by omega)
  · intro t ht
    obtain ⟨h1, h2⟩ := (mem_Range2 _ _ t).mp ht
    omega
  · intro t ht
    obtain ⟨h1, h2⟩ := (mem_Range1_neg Radius t hR).mp ht
    omega
  · intro t ht
    obtain ⟨h1, h2⟩ := (mem_Range2 _ _ t).mp ht
    omega

theorem average_well_defined_witness :
    CurrentSceneStartIndex 1 CutOnBothSides < CurrentSceneEndIndex 1 CutOnBothSides ∧
      (0 : ℚ) < ((CurrentSceneEndIndex 1 CutOnBothSides
          - CurrentSceneStartIndex 1 CutOnBothSides : Int) : ℚ) :=
  ⟨(average_well_defined 1 (by decide) CutOnBothSides).1,
    (average_well_defined 1 (by decide) CutOnBothSides).2.2.1⟩

/-- C14: for every radius `≥ 0` and every assignment of tags, when some offset of
`[-Radius, -1]` has `_SceneChangePrev` present and true, `start` is the largest
such offset; when none has, `start = -Radius`; and `start` depends on the
`_SceneChangePrev` tags of the offsets `[-Radius, -1]` only, so the anchor's own
tag (offset `0`) does not influence it. -/
theorem start_is_last_prev_cut (Radius : Int) (hR : 0 ≤ Radius)
    (ReferenceFrames : Int → Frame α) :
    ((∃ t, -Radius ≤ t ∧ t ≤ -1 ∧
        SceneChangeTag (ReferenceFrames t).SceneChangePrev = true) →
      -Radius ≤ CurrentSceneStartIndex Radius ReferenceFrames ∧
      CurrentSceneStartIndex Radius ReferenceFrames ≤ -1 ∧
      SceneChangeTag
        (ReferenceFrames (CurrentSceneStartIndex Radius ReferenceFrames)).SceneChangePrev
          = true ∧
      ∀ u, -Radius ≤ u → u ≤ -1 →
        SceneChangeTag (ReferenceFrames u).SceneChangePrev = true →
        u ≤ CurrentSceneStartIndex Radius ReferenceFrames) ∧
    ((∀ u, -Radius ≤ u → u ≤ -1 →
        SceneChangeTag (ReferenceFrames u).SceneChangePrev = false) →
      CurrentSceneStartIndex Radius ReferenceFrames = -Radius) ∧
    (∀ OtherFrames : Int → Frame α,
      (∀ u, -Radius ≤ u → u ≤ -1 →
        (OtherFrames u).SceneChangePrev = (ReferenceFrames u).SceneChangePrev) →
      CurrentSceneStartIndex Radius OtherFrames
        = CurrentSceneStartIndex Radius ReferenceFrames) := by
  refine ⟨?_, ?_, ?_⟩
  · rintro ⟨t, ht1, ht2, ht3⟩
    rcases CurrentSceneStartIndex_char Radius hR ReferenceFrames with
      ⟨_, hall⟩ | ⟨h1, h2, h3, h4⟩
    · have := hall t ht1 ht2
      rw [ht3] at this
      exact Bool.noConfusion this
    · refine ⟨h1, h2, h3, ?_⟩
      intro u _ hu2 hu3
      by_contra hlt
      have := h4 u (by omega) hu2
      rw [hu3] at this
      exact Bool.noConfusion this
  · intro hall
    rcases CurrentSceneStartIndex_char Radius hR ReferenceFrames with
      ⟨hs, _⟩ | ⟨h1, h2, h3, _⟩
    · exact hs
    · have := hall _ h1 h2
      rw [h3] at this
      exact Bool.noConfusion this
  · intro OtherFrames hsame
    unfold CurrentSceneStartIndex
    have hfind : (Range1 (-Radius)).find?
          (fun t => SceneChangeTag (OtherFrames t).SceneChangePrev)
        = (Range1 (-Radius)).find?
          (fun t => SceneChangeTag (ReferenceFrames t).SceneChangePrev) := by
      apply find_congr_on
      intro u hu
      obtain ⟨h1, h2⟩ := (mem_Range1_neg Radius u hR).mp hu
      simp only [hsame u h1 h2]
    rw [hfind]

theorem start_is_last_prev_cut_witness :
    CurrentSceneStartIndex 3 PrevCutsAndAnchor = -1 ∧
      (-3 ≤ CurrentSceneStartIndex 3 PrevCutsAndAnchor ∧
      CurrentSceneStartIndex 3 PrevCutsAndAnchor ≤ -1 ∧
      SceneChangeTag
        (PrevCutsAndAnchor (CurrentSceneStartIndex 3 PrevCutsAndAnchor)).SceneChangePrev
          = true ∧
      ∀ u, -3 ≤ u → u ≤ -1 →
        SceneChangeTag (PrevCutsAndAnchor u).SceneChangePrev = true →
        u ≤ CurrentSceneStartIndex 3 PrevCutsAndAnchor) :=
  ⟨by decide,
    (start_is_last_prev_cut 3 (by decide) PrevCutsAndAnchor).1
      ⟨-3, by decide, by decide, by decide⟩⟩

/-- C15: for every radius and every assignment of tags, with `start` as left by
the first loop, when some offset of `[start, Radius]` has `_SceneChangeNext`
present and true, `end` is `t + 1` for the smallest such offset `t`; when none
has, `end = Radius + 1`. With radius `3`, no `_SceneChangePrev` tag and a single
true `_SceneChangeNext` at offset `1`: `start = -3` and `end = 2`. -/
theorem end_is_first_next_cut (Radius : Int) (ReferenceFrames : Int → Frame α) :
    ((∃ t, CurrentSceneStartIndex Radius ReferenceFrames ≤ t ∧ t ≤ Radius ∧
        SceneChangeTag (ReferenceFrames t).SceneChangeNext = true) →
      ∃ t, CurrentSceneEndIndex Radius ReferenceFrames = t + 1 ∧
        CurrentSceneStartIndex Radius ReferenceFrames ≤ t ∧ t ≤ Radius ∧
        SceneChangeTag (ReferenceFrames t).SceneChangeNext = true ∧
        ∀ u, CurrentSceneStartIndex Radius ReferenceFrames ≤ u → u ≤ Radius →
          SceneChangeTag (ReferenceFrames u).SceneChangeNext = true → t ≤ u) ∧
    ((∀ u, CurrentSceneStartIndex Radius ReferenceFrames ≤ u → u ≤ Radius →
        SceneChangeTag (ReferenceFrames u).SceneChangeNext = false) →
      CurrentSceneEndIndex Radius ReferenceFrames = Radius + 1) ∧
    (CurrentSceneStartIndex 3 NextCutOneAfter = -3 ∧
      CurrentSceneEndIndex 3 NextCutOneAfter = 2) := by
  refine ⟨?_, ?_, by decide, by decide⟩
  · rintro ⟨t, ht1, ht2, ht3⟩
    rcases CurrentSceneEndIndex_spec Radius ReferenceFrames with
      ⟨_, hall⟩ | ⟨v, he, h1, h2, h3, h4⟩
    · have := hall t ht1 ht2
      rw [ht3] at this
      exact Bool.noConfusion this
    · refine ⟨v, he, h1, h2, h3, ?_⟩
      intro u hu1 _ hu3
      by_contra hlt
      have := h4 u hu1 (by omega)
      rw [hu3] at this
      exact Bool.noConfusion this
  · intro hall
    rcases CurrentSceneEndIndex_spec Radius ReferenceFrames with
      ⟨he, _⟩ | ⟨v, _, h1, h2, h3, _⟩
    · exact he
    · have := hall v h1 h2
      rw [h3] at this
      exact Bool.noConfusion this

end ResolverClaims

section RawGainLemmas

/-- One channel of intensity `I ≤ M`, with `Epsilon ≤ M`: its raw correction
`M / max(I, Epsilon)` is one when `I = M`, is at least one, and exceeds one when
`I < M` and `Epsilon < M`. -/
theorem RawCorrection_ge_one (M I : ℝ) (hM : Epsilon ≤ M) (hI : I ≤ M) :
    (I = M → RawCorrection M I = 1) ∧ 1 ≤ RawCorrection M I ∧
      (Epsilon < M → I < M → 1 < RawCorrection M I) := by
  have hε : (0 : ℝ) < Epsilon := Epsilon_pos
  have hd : 0 < max I Epsilon := max_Epsilon_pos I
  have hle : max I Epsilon ≤ M := max_le hI hM
  unfold RawCorrection
  refine ⟨?_, ?_, ?_⟩
  · intro h
    rw [h, max_eq_left hM, div_self (ne_of_gt (lt_of_lt_of_le hε hM))]
  · rw [le_div_iff₀ hd, one_mul]
    exact hle
  · intro h1 h2
    rw [lt_div_iff₀ hd, one_mul]
    exact max_lt h2 h1

/-- A raw correction with a non-negative maximum does not grow with the
channel's intensity. -/
theorem RawCorrection_antitone (M Ia Ib : ℝ) (hM : 0 ≤ M) (h : Ia ≤ Ib) :
    RawCorrection M Ib ≤ RawCorrection M Ia := by
  unfold RawCorrection
  exact div_le_div_of_nonneg_left hM (max_Epsilon_pos Ia) (max_le_max h (le_refl _))

/-- With a negative maximum every channel is below `Epsilon` and the three raw
corrections are the same `M / Epsilon`. -/
theorem RawCorrection_of_neg (M I : ℝ) (hM : M < 0) (hI : I ≤ M) :
    RawCorrection M I = M / Epsilon := by
  have hε : (0 : ℝ) < Epsilon := Epsilon_pos
  unfold RawCorrection
  rw [max_eq_right (by linarith)]

/-- The order of two raw corrections is the reverse of the order of the two
intensities, whatever the sign of the maximum. -/
theorem RawCorrection_order (M Ia Ib : ℝ) (ha : Ia ≤ M) (hb : Ib ≤ M) (h : Ia ≤ Ib) :
    RawCorrection M Ib ≤ RawCorrection M Ia := by
  rcases le_or_lt 0 M with hM | hM
  · exact RawCorrection_antitone M Ia Ib hM h
  · rw [RawCorrection_of_neg M Ia hM ha, RawCorrection_of_neg M Ib hM hb]

end RawGainLemmas

section RawGainClaims

/-- C16 (as amended): for every triple of intensities whose maximum `M` is at
least `Epsilon = 1e-20`, a channel whose intensity is `M` has raw correction
exactly one and every raw correction is at least one; if moreover
`M > Epsilon`, every channel strictly dimmer than `M` has raw correction
greater than one. -/
theorem raw_gains_brighten (IR IG IB : ℝ) (hM : Epsilon ≤ MaxIntensity IR IG IB) :
    ((IR = MaxIntensity IR IG IB → RawCorrection (MaxIntensity IR IG IB) IR = 1) ∧
      (IG = MaxIntensity IR IG IB → RawCorrection (MaxIntensity IR IG IB) IG = 1) ∧
      (IB = MaxIntensity IR IG IB → RawCorrection (MaxIntensity IR IG IB) IB = 1)) ∧
    (1 ≤ RawCorrection (MaxIntensity IR IG IB) IR ∧
      1 ≤ RawCorrection (MaxIntensity IR IG IB) IG ∧
      1 ≤ RawCorrection (MaxIntensity IR IG IB) IB) ∧
    (Epsilon < MaxIntensity IR IG IB →
      (IR < MaxIntensity IR IG IB → 1 < RawCorrection (MaxIntensity IR IG IB) IR) ∧
      (IG < MaxIntensity IR IG IB → 1 < RawCorrection (MaxIntensity IR IG IB) IG) ∧
      (IB < MaxIntensity IR IG IB → 1 < RawCorrection (MaxIntensity IR IG IB) IB)) := by
  obtain ⟨h1, h2, h3⟩ := le_MaxIntensity IR IG IB
  obtain ⟨r1, r2, r3⟩ := RawCorrection_ge_one _ IR hM h1
  obtain ⟨g1, g2, g3⟩ := RawCorrection_ge_one _ IG hM h2
  obtain ⟨b1, b2, b3⟩ := RawCorrection_ge_one _ IB hM h3
  exact ⟨⟨r1, g1, b1⟩, ⟨r2, g2, b2⟩, fun h => ⟨r3 h, g3 h, b3 h⟩⟩

theorem raw_gains_brighten_witness :
    (Epsilon : ℝ) ≤ MaxIntensity 1 2 3 ∧
      (1 ≤ RawCorrection (MaxIntensity (1 : ℝ) 2 3) 1 ∧
      1 ≤ RawCorrection (MaxIntensity (1 : ℝ) 2 3) 2 ∧
      1 ≤ RawCorrection (MaxIntensity (1 : ℝ) 2 3) 3) :=
  ⟨by norm_num [MaxIntensity, Epsilon],
    (raw_gains_brighten 1 2 3 (by norm_num [MaxIntensity, Epsilon])).2.1⟩

/-- C16 fails as stated: for the strictly positive intensities
`IR = IG = IB = 1e-30` the brightest channel has raw correction `1e-10`, which
is neither one nor at least one; and for `(1e-20, 1e-21, 1e-21)` the channel `G`
is strictly dimmer than the maximum yet its raw correction is one, not more. -/
theorem raw_gain_below_one :
    ((0 : ℝ) < 1 / 10 ^ 30 ∧
      RawCorrection (MaxIntensity (1 / 10 ^ 30 : ℝ) (1 / 10 ^ 30) (1 / 10 ^ 30)) (1 / 10 ^ 30)
        = 1 / 10 ^ 10 ∧
      ¬ (1 ≤ RawCorrection (MaxIntensity (1 / 10 ^ 30 : ℝ) (1 / 10 ^ 30) (1 / 10 ^ 30))
          (1 / 10 ^ 30))) ∧
    ((0 : ℝ) < 1 / 10 ^ 21 ∧
      (1 / 10 ^ 21 : ℝ) < MaxIntensity (1 / 10 ^ 20 : ℝ) (1 / 10 ^ 21) (1 / 10 ^ 21) ∧
      ¬ (1 < RawCorrection (MaxIntensity (1 / 10 ^ 20 : ℝ) (1 / 10 ^ 21) (1 / 10 ^ 21))
          (1 / 10 ^ 21))) := by
  have h1 : RawCorrection (MaxIntensity (1 / 10 ^ 30 : ℝ) (1 / 10 ^ 30) (1 / 10 ^ 30))
      (1 / 10 ^ 30) = 1 / 10 ^ 10 := by
    rw [MaxIntensity_same]
    unfold RawCorrection Epsilon
    rw [max_eq_right (by norm_num)]
    norm_num
  have hmax : MaxIntensity (1 / 10 ^ 20 : ℝ) (1 / 10 ^ 21) (1 / 10 ^ 21) = 1 / 10 ^ 20 := by
    unfold MaxIntensity
    rw [max_eq_left (by norm_num), max_eq_left (by norm_num)]
  have h2 : RawCorrection (MaxIntensity (1 / 10 ^ 20 : ℝ) (1 / 10 ^ 21) (1 / 10 ^ 21))
      (1 / 10 ^ 21) = 1 := by
    rw [hmax]
    unfold RawCorrection Epsilon
    rw [max_eq_right (by norm_num)]
    norm_num
  refine ⟨⟨by norm_num, h1, ?_⟩, ⟨by norm_num, ?_, ?_⟩⟩
  · rw [h1]; norm_num
  · rw [hmax]; norm_num
  · rw [h2]; norm_num

/-- C17: for every triple of real intensities the three divisors
`max(I, Epsilon)` of lines 82-84 and the divisor `max(NormalizationFactor,
Epsilon)` used three times on lines 86-88 are at least `Epsilon = 1e-20 > 0`
(and so is the constant divisor `sqrt 3` of line 85); the corrections are the
quotients by exactly these divisors. -/
theorem guarded_divisions (IR IG IB : ℝ) :
    ((0 : ℝ) < Epsilon ∧ (Epsilon : ℝ) = 1 / 10 ^ 20) ∧
    (Epsilon ≤ max IR Epsilon ∧ Epsilon ≤ max IG Epsilon ∧ Epsilon ≤ max IB Epsilon) ∧
    Epsilon ≤ max (NormalizationFactor Real.sqrt
        (MaxIntensity IR IG IB / max IR Epsilon)
        (MaxIntensity IR IG IB / max IG Epsilon)
        (MaxIntensity IR IG IB / max IB Epsilon)) Epsilon ∧
    Epsilon ≤ Real.sqrt 3 ∧
    Corrections Real.sqrt IR IG IB =
      (MaxIntensity IR IG IB / max IR Epsilon
          / max (NormalizationFactor Real.sqrt
              (MaxIntensity IR IG IB / max IR Epsilon)
              (MaxIntensity IR IG IB / max IG Epsilon)
              (MaxIntensity IR IG IB / max IB Epsilon)) Epsilon,
       MaxIntensity IR IG IB / max IG Epsilon
          / max (NormalizationFactor Real.sqrt
              (MaxIntensity IR IG IB / max IR Epsilon)
              (MaxIntensity IR IG IB / max IG Epsilon)
              (MaxIntensity IR IG IB / max IB Epsilon)) Epsilon,
       MaxIntensity IR IG IB / max IB Epsilon
          / max (NormalizationFactor Real.sqrt
              (MaxIntensity IR IG IB / max IR Epsilon)
              (MaxIntensity IR IG IB / max IG Epsilon)
              (MaxIntensity IR IG IB / max IB Epsilon)) Epsilon) := by
  refine ⟨⟨Epsilon_pos, rfl⟩, ⟨le_max_right _ _, le_max_right _ _, le_max_right _ _⟩,
    le_max_right _ _, ?_, rfl⟩
  have h1 : (1 : ℝ) ≤ Real.sqrt 3 := by
    rw [Real.le_sqrt' (by norm_num)]; norm_num
  have := Epsilon_lt_one
  linarith

end RawGainClaims

section BalanceClaims

/-- C18: for every triple of intensities that are all at least `Epsilon = 1e-20`,
the corrections equalise the channels: `gR * IR = gG * IG = gB * IB`, each
product being `MaxIntensity / max(NormalizationFactor, Epsilon)`. -/
theorem white_balance (IR IG IB : ℝ) (hR : Epsilon ≤ IR) (hG : Epsilon ≤ IG)
    (hB : Epsilon ≤ IB) :
    (Corrections Real.sqrt IR IG IB).1 * IR = (Corrections Real.sqrt IR IG IB).2.1 * IG ∧
      (Corrections Real.sqrt IR IG IB).2.1 * IG
        = (Corrections Real.sqrt IR IG IB).2.2 * IB := by
  have hε : (0 : ℝ) < Epsilon := Epsilon_pos
  have key : ∀ M I D : ℝ, Epsilon ≤ I → 0 < D →
      RawCorrection M I / D * I = M / D := by
    intro M I D hI hD
    unfold RawCorrection
    rw [max_eq_left hI]
    have hI0 : I ≠ 0 := ne_of_gt (lt_of_lt_of_le hε hI)
    have hD0 : D ≠ 0 := ne_of_gt hD
    field_simp
    ring
  unfold Corrections
  simp only
  rw [key _ IR _ hR (max_Epsilon_pos _), key _ IG _ hG (max_Epsilon_pos _),
    key _ IB _ hB (max_Epsilon_pos _)]
  exact ⟨rfl, rfl⟩

theorem white_balance_witness :
    (Epsilon : ℝ) ≤ 1 ∧ (Epsilon : ℝ) ≤ 2 ∧ (Epsilon : ℝ) ≤ 4 ∧
      (Corrections Real.sqrt (1 : ℝ) 2 4).1 * 1 = (Corrections Real.sqrt (1 : ℝ) 2 4).2.1 * 2 ∧
      (Corrections Real.sqrt (1 : ℝ) 2 4).2.1 * 2
        = (Corrections Real.sqrt (1 : ℝ) 2 4).2.2 * 4 :=
  ⟨by norm_num [Epsilon], by norm_num [Epsilon], by norm_num [Epsilon],
    white_balance 1 2 4 (by norm_num [Epsilon]) (by norm_num [Epsilon])
      (by norm_num [Epsilon])⟩

/-- C19: for every triple of real intensities and any two channels `a`, `b`, if
`I_a ≤ I_b` then `g_b ≤ g_a`: a dimmer channel never gets a smaller correction
than a brighter one. -/
theorem gain_ordering (IR IG IB : ℝ) :
    (IR ≤ IG → (Corrections Real.sqrt IR IG IB).2.1 ≤ (Corrections Real.sqrt IR IG IB).1) ∧
    (IG ≤ IR → (Corrections Real.sqrt IR IG IB).1 ≤ (Corrections Real.sqrt IR IG IB).2.1) ∧
    (IR ≤ IB → (Corrections Real.sqrt IR IG IB).2.2 ≤ (Corrections Real.sqrt IR IG IB).1) ∧
    (IB ≤ IR → (Corrections Real.sqrt IR IG IB).1 ≤ (Corrections Real.sqrt IR IG IB).2.2) ∧
    (IG ≤ IB → (Corrections Real.sqrt IR IG IB).2.2 ≤ (Corrections Real.sqrt IR IG IB).2.1) ∧
    (IB ≤ IG → (Corrections Real.sqrt IR IG IB).2.1 ≤ (Corrections Real.sqrt IR IG IB).2.2) := by
  obtain ⟨h1, h2, h3⟩ := le_MaxIntensity IR IG IB
  have key : ∀ Ia Ib D : ℝ, Ia ≤ MaxIntensity IR IG IB → Ib ≤ MaxIntensity IR IG IB →
      0 < D → Ia ≤ Ib →
      RawCorrection (MaxIntensity IR IG IB) Ib / D
        ≤ RawCorrection (MaxIntensity IR IG IB) Ia / D := by
    intro Ia Ib D ha hb hD h
    exact div_le_div_of_nonneg_right (RawCorrection_order _ Ia Ib ha hb h) (le_of_lt hD)
  unfold Corrections
  simp only
  exact ⟨key IR IG _ h1 h2 (max_Epsilon_pos _), key IG IR _ h2 h1 (max_Epsilon_pos _),
    key IR IB _ h1 h3 (max_Epsilon_pos _), key IB IR _ h3 h1 (max_Epsilon_pos _),
    key IG IB _ h2 h3 (max_Epsilon_pos _), key IB IG _ h3 h2 (max_Epsilon_pos _)⟩

end BalanceClaims

section MeanLemmas

variable {α : Type} [LinearOrderedField α]

/-- The mean of `v` over a non-empty `[s, e)` is at least any lower bound of
`v` on `[s, e)` and at most any upper bound. -/
theorem mean_Ico_bounds (v : Int → α) (s e : Int) (hse : s < e) :
    (∀ lo, (∀ t, s ≤ t → t < e → lo ≤ v t) →
      lo ≤ (∑ t in Finset.Ico s e, v t) / ((e - s : Int) : α)) ∧
    (∀ hi, (∀ t, s ≤ t → t < e → v t ≤ hi) →
      (∑ t in Finset.Ico s e, v t) / ((e - s : Int) : α) ≤ hi) := by
  have hn : (0 : α) < ((e - s : Int) : α) := Int.cast_pos.mpr (by omega)
  have hcard : ((Finset.Ico s e).card : α) = ((e - s : Int) : α) := by
    rw [Int.card_Ico, ← Int.cast_natCast, Int.toNat_of_nonneg (by omega)]
  constructor
  · intro lo h
    rw [le_div_iff₀ hn, ← hcard, mul_comm, ← nsmul_eq_mul]
    apply Finset.card_nsmul_le_sum
    intro t ht
    obtain ⟨h1, h2⟩ := Finset.mem_Ico.mp ht
    exact h t h1 h2
  · intro hi h
    rw [div_le_iff₀ hn, ← hcard, mul_comm, ← nsmul_eq_mul]
    apply Finset.sum_le_card_nsmul
    intro t ht
    obtain ⟨h1, h2⟩ := Finset.mem_Ico.mp ht
    exact h t h1 h2

/-- When the rounding changes no partial sum and does not change the quotient,
the reduced intensity lies between any lower and any upper bound of the
`PlaneStatsAverage` values of the window `[-Radius, Radius]`. -/
theorem AverageIntensityOverTime_bounds (RoundDouble : α → α) (Radius : Int)
    (hR : 0 ≤ Radius) (ReferenceFrames : Int → Frame α)
    (hsum : ∀ k, CurrentSceneStartIndex Radius ReferenceFrames < k →
      k ≤ CurrentSceneEndIndex Radius ReferenceFrames →
      RoundDouble (∑ t in Finset.Ico (CurrentSceneStartIndex Radius ReferenceFrames) k,
          (ReferenceFrames t).PlaneStatsAverage)
        = ∑ t in Finset.Ico (CurrentSceneStartIndex Radius ReferenceFrames) k,
          (ReferenceFrames t).PlaneStatsAverage)
    (hquot : RoundDouble
        ((∑ t in Finset.Ico (CurrentSceneStartIndex Radius ReferenceFrames)
            (CurrentSceneEndIndex Radius ReferenceFrames),
          (ReferenceFrames t).PlaneStatsAverage)
        / ((CurrentSceneEndIndex Radius ReferenceFrames
            - CurrentSceneStartIndex Radius ReferenceFrames : Int) : α))
      = (∑ t in Finset.Ico (CurrentSceneStartIndex Radius ReferenceFrames)
            (CurrentSceneEndIndex Radius ReferenceFrames),
          (ReferenceFrames t).PlaneStatsAverage)
        / ((CurrentSceneEndIndex Radius ReferenceFrames
            - CurrentSceneStartIndex Radius ReferenceFrames : Int) : α)) :
    (∀ lo, (∀ t, -Radius ≤ t → t ≤ Radius → lo ≤ (ReferenceFrames t).PlaneStatsAverage) →
      lo ≤ AverageIntensityOverTime RoundDouble Radius ReferenceFrames) ∧
    (∀ hi, (∀ t, -Radius ≤ t → t ≤ Radius → (ReferenceFrames t).PlaneStatsAverage ≤ hi) →
      AverageIntensityOverTime RoundDouble Radius ReferenceFrames ≤ hi) := by
  obtain ⟨hs1, _⟩ := CurrentSceneStartIndex_spec Radius hR ReferenceFrames
  have hlt : CurrentSceneStartIndex Radius ReferenceFrames
      < CurrentSceneEndIndex Radius ReferenceFrames ∧
      CurrentSceneEndIndex Radius ReferenceFrames ≤ Radius + 1 := by
    rcases CurrentSceneEndIndex_spec Radius ReferenceFrames with
      ⟨he, _⟩ | ⟨t, he, h1, h2, _, _⟩ <;> omega
  obtain ⟨hlo, hhi⟩ := mean_Ico_bounds (fun t => (ReferenceFrames t).PlaneStatsAverage)
    _ _ hlt.1
  rw [AverageIntensityOverTime_of_exact RoundDouble Radius ReferenceFrames hsum hquot]
  constructor
  · intro lo h
    exact hlo lo (fun t h1 h2 => h t (by omega) (by omega))
  · intro hi h
    exact hhi hi (fun t h1 h2 => h t (by omega) (by omega))

end MeanLemmas

section MeanClaims

variable {α : Type} [LinearOrderedField α]

/-- C20 (as amended): for every radius `≥ 0`, every assignment of tags and all
`PlaneStatsAverage` values, whenever the rounding of the `double` operations
changes no partial sum of the accumulation and does not change the quotient (in
particular in exact arithmetic), the value returned by
`AverageIntensityOverTime` lies between the minimum and the maximum of
`PlaneStatsAverage` over the window `[-Radius, Radius]`; and if moreover every
value of the window equals a constant `c`, the result is `c`, whatever the scene
tags. -/
theorem reduced_is_mean (RoundDouble : α → α) (Radius : Int) (hR : 0 ≤ Radius)
    (ReferenceFrames : Int → Frame α)
    (hsum : ∀ k, CurrentSceneStartIndex Radius ReferenceFrames < k →
      k ≤ CurrentSceneEndIndex Radius ReferenceFrames →
      RoundDouble (∑ t in Finset.Ico (CurrentSceneStartIndex Radius ReferenceFrames) k,
          (ReferenceFrames t).PlaneStatsAverage)
        = ∑ t in Finset.Ico (CurrentSceneStartIndex Radius ReferenceFrames) k,
          (ReferenceFrames t).PlaneStatsAverage)
    (hquot : RoundDouble
        ((∑ t in Finset.Ico (CurrentSceneStartIndex Radius ReferenceFrames)
            (CurrentSceneEndIndex Radius ReferenceFrames),
          (ReferenceFrames t).PlaneStatsAverage)
        / ((CurrentSceneEndIndex Radius ReferenceFrames
            - CurrentSceneStartIndex Radius ReferenceFrames : Int) : α))
      = (∑ t in Finset.Ico (CurrentSceneStartIndex Radius ReferenceFrames)
            (CurrentSceneEndIndex Radius ReferenceFrames),
          (ReferenceFrames t).PlaneStatsAverage)
        / ((CurrentSceneEndIndex Radius ReferenceFrames
            - CurrentSceneStartIndex Radius ReferenceFrames : Int) : α)) :
    ((Finset.Icc (-Radius) Radius).inf'
        (Finset.nonempty_Icc.mpr (by omega : -Radius ≤ Radius))
        (fun t => (ReferenceFrames t).PlaneStatsAverage)
      ≤ AverageIntensityOverTime RoundDouble Radius ReferenceFrames ∧
     AverageIntensityOverTime RoundDouble Radius ReferenceFrames
      ≤ (Finset.Icc (-Radius) Radius).sup'
          (Finset.nonempty_Icc.mpr (by omega : -Radius ≤ Radius))
          (fun t => (ReferenceFrames t).PlaneStatsAverage)) ∧
    (∀ c, (∀ t, -Radius ≤ t → t ≤ Radius → (ReferenceFrames t).PlaneStatsAverage = c) →
      AverageIntensityOverTime RoundDouble Radius ReferenceFrames = c) := by
  obtain ⟨hlo, hhi⟩ :=
    AverageIntensityOverTime_bounds RoundDouble Radius hR ReferenceFrames hsum hquot
  refine ⟨⟨?_, ?_⟩, ?_⟩
  · apply hlo
    intro t h1 h2
    exact Finset.inf'_le (fun t => (ReferenceFrames t).PlaneStatsAverage)
      (Finset.mem_Icc.mpr ⟨h1, h2⟩)
  · apply hhi
    intro t h1 h2
    exact Finset.le_sup' (fun t => (ReferenceFrames t).PlaneStatsAverage)
      (Finset.mem_Icc.mpr ⟨h1, h2⟩)
  · intro c h
    exact le_antisymm (hhi c (fun t h1 h2 => le_of_eq (h t h1 h2)))
      (hlo c (fun t h1 h2 => le_of_eq (h t h1 h2).symm))

end MeanClaims

section RoundingLemmas

theorem log2_eq (x : ℚ) (e : Int) (h1 : (2 : ℚ) ^ e ≤ x) (h2 : x < (2 : ℚ) ^ (e + 1)) :
    Int.log 2 x = e := by
  have hx : 0 < x := lt_of_lt_of_le (by positivity) h1
  have a := (Int.zpow_le_iff_le_log (by norm_num : 1 < 2) hx).mp h1
  have b := (Int.lt_zpow_iff_log_lt (by norm_num : 1 < 2) hx).mp h2
  omega

/-- How `RoundNearestEven` is evaluated at a value `x ≠ 0`: `e` is the exponent
of `x`, `2 ^ k` the spacing of the format at `x`, `f` the integer part of
`x / 2 ^ k` and `m` the integer chosen by round-half-even. -/
theorem RoundNearestEven_eval (Precision : Nat) (MinExponent : Int) (x : ℚ)
    (e k f m : Int)
    (he1 : (2 : ℚ) ^ e ≤ |x|) (he2 : |x| < (2 : ℚ) ^ (e + 1))
    (hk : max (e - ((Precision : Int) - 1)) MinExponent = k)
    (hf1 : (f : ℚ) ≤ x / 2 ^ k) (hf2 : x / 2 ^ k < f + 1)
    (hm : (if x / 2 ^ k - (f : ℚ) < 1 / 2 then f
      else if 1 / 2 < x / 2 ^ k - (f : ℚ) then f + 1
      else if f % 2 = 0 then f else f + 1) = m) :
    RoundNearestEven Precision MinExponent x = (m : ℚ) * 2 ^ k := by
  have hfloor : ⌊x / 2 ^ k⌋ = f := by
    rw [Int.floor_eq_iff]; exact ⟨hf1, hf2⟩
  unfold RoundNearestEven
  simp only [log2_eq |x| e he1 he2, hk]
  unfold RoundHalfEven
  rw [hfloor, hm]

theorem RoundToDouble_zero : RoundToDouble 0 = 0 := by
  simp [RoundToDouble, RoundNearestEven, RoundHalfEven]

theorem RoundToDouble_one : RoundToDouble 1 = 1 := by
  unfold RoundToDouble
  rw [RoundNearestEven_eval 53 (-1074) 1 0 (-52) 4503599627370496 4503599627370496
    (by norm_num) (by norm_num) (by decide) (by norm_num) (by norm_num) (by norm_num)]
  norm_num

theorem RoundToDouble_1e16 : RoundToDouble (10 ^ 16) = 10 ^ 16 := by
  unfold RoundToDouble
  rw [RoundNearestEven_eval 53 (-1074) (10 ^ 16) 53 1 5000000000000000 5000000000000000
    (by norm_num [abs_of_pos]) (by norm_num [abs_of_pos]) (by decide) (by norm_num)
    (by norm_num) (by norm_num)]
  norm_num

theorem RoundToDouble_neg_1e16 : RoundToDouble (-(10 ^ 16)) = -(10 ^ 16) := by
  unfold RoundToDouble
  rw [RoundNearestEven_eval 53 (-1074) (-(10 ^ 16)) 53 1 (-5000000000000000)
    (-5000000000000000)
    (by norm_num [abs_of_pos]) (by norm_num [abs_of_pos]) (by decide) (by norm_num)
    (by norm_num) (by norm_num)]
  norm_num

/-- In `double`, `1e16 + 1` is `1e16`: the spacing there is `2` and the tie goes
to the even multiple. -/
theorem RoundToDouble_1e16_add_one : RoundToDouble (10 ^ 16 + 1) = 10 ^ 16 := by
  unfold RoundToDouble
  rw [RoundNearestEven_eval 53 (-1074) (10 ^ 16 + 1) 53 1 5000000000000000
    5000000000000000
    (by norm_num [abs_of_pos]) (by norm_num [abs_of_pos]) (by decide) (by norm_num)
    (by norm_num) (by norm_num)]
  norm_num

/-- The value `TenthDouble` is a `double`. -/
theorem RoundToDouble_tenth : RoundToDouble TenthDouble = TenthDouble := by
  unfold RoundToDouble TenthDouble
  rw [RoundNearestEven_eval 53 (-1074) _ (-4) (-56) 7205759403792794 7205759403792794
    (by norm_num [abs_of_pos]) (by norm_num [abs_of_pos]) (by decide) (by norm_num)
    (by norm_num) (by norm_num)]
  norm_num

theorem RoundToDouble_two_tenths :
    RoundToDouble (TenthDouble + TenthDouble) = TenthDouble + TenthDouble := by
  unfold RoundToDouble TenthDouble
  rw [RoundNearestEven_eval 53 (-1074) _ (-3) (-55) 7205759403792794 7205759403792794
    (by norm_num [abs_of_pos]) (by norm_num [abs_of_pos]) (by decide) (by norm_num)
    (by norm_num) (by norm_num)]
  norm_num

/-- In `double`, `0.1 + 0.1 + 0.1` is a tie between two neighbours and rounds up
to the even one. -/
theorem RoundToDouble_three_tenths :
    RoundToDouble (TenthDouble + TenthDouble + TenthDouble) = ThreeTenthsDouble := by
  unfold RoundToDouble TenthDouble ThreeTenthsDouble
  rw [RoundNearestEven_eval 53 (-1074) _ (-2) (-54) 5404319552844595 5404319552844596
    (by norm_num [abs_of_pos]) (by norm_num [abs_of_pos]) (by decide) (by norm_num)
    (by norm_num) (by norm_num)]
  norm_num

/-- In `double`, `0.30000000000000004 / 3` rounds up to the neighbour above the
`double` nearest to `0.1`. -/
theorem RoundToDouble_tenth_mean :
    RoundToDouble (ThreeTenthsDouble / 3) = TenthMeanDouble := by
  unfold RoundToDouble TenthMeanDouble ThreeTenthsDouble
  rw [RoundNearestEven_eval 53 (-1074) _ (-4) (-56) 7205759403792794 7205759403792795
    (by norm_num [abs_of_pos]) (by norm_num [abs_of_pos]) (by decide) (by norm_num)
    (by norm_num) (by norm_num)]
  norm_num

/-- The sample `16777215 = 2 ^ 24 - 1` is a `float`. -/
theorem RoundToSingle_bright : RoundToSingle 16777215 = 16777215 := by
  unfold RoundToSingle
  rw [RoundNearestEven_eval 24 (-149) _ 23 0 16777215 16777215
    (by norm_num [abs_of_pos]) (by norm_num [abs_of_pos]) (by decide) (by norm_num)
    (by norm_num) (by norm_num)]
  norm_num

/-- The correction `1.5` is a `double`. -/
theorem RoundToDouble_three_halves : RoundToDouble (3 / 2) = 3 / 2 := by
  unfold RoundToDouble
  rw [RoundNearestEven_eval 53 (-1074) _ 0 (-52) 6755399441055744 6755399441055744
    (by norm_num [abs_of_pos]) (by norm_num [abs_of_pos]) (by decide) (by norm_num)
    (by norm_num) (by norm_num)]
  norm_num

/-- What `float *= double` stores for `16777215 * 1.5 = 25165822.5`: the product
is a `double`, and its conversion to `float`, where the spacing is `2`, is
`25165822`. -/
theorem StoreSingle_bright : StoreSingle (16777215 * (3 / 2)) = 25165822 := by
  have hd : RoundToDouble (16777215 * (3 / 2)) = 50331645 / 2 := by
    unfold RoundToDouble
    rw [RoundNearestEven_eval 53 (-1074) _ 24 (-28) 6755399038402560 6755399038402560
      (by norm_num [abs_of_pos]) (by norm_num [abs_of_pos]) (by decide) (by norm_num)
      (by norm_num) (by norm_num)]
    norm_num
  unfold StoreSingle
  rw [hd]
  unfold RoundToSingle
  rw [RoundNearestEven_eval 24 (-149) _ 24 1 12582911 12582911
    (by norm_num [abs_of_pos]) (by norm_num [abs_of_pos]) (by decide) (by norm_num)
    (by norm_num) (by norm_num)]
  norm_num

theorem RoundHalfEven_intCast (z : Int) : RoundHalfEven (z : ℚ) = z := by
  unfold RoundHalfEven
  simp

/-- A value that is a multiple of the spacing of the format at that value is
not changed by the rounding. -/
theorem RoundNearestEven_of_multiple (Precision : Nat) (MinExponent : Int) (x : ℚ)
    (z k : Int) (hk : max (Int.log 2 |x| - ((Precision : Int) - 1)) MinExponent = k)
    (hx : x = (z : ℚ) * 2 ^ k) :
    RoundNearestEven Precision MinExponent x = x := by
  have h2 : (2 : ℚ) ^ k ≠ 0 := zpow_ne_zero k (by norm_num)
  have hq : x / 2 ^ k = (z : ℚ) := by
    rw [hx, mul_div_assoc, div_self h2, mul_one]
  unfold RoundNearestEven
  simp only [hk, hq, RoundHalfEven_intCast]
  exact hx.symm

/-- Every integer below `2 ^ 53` in absolute value is a `double`. -/
theorem RoundToDouble_intCast (n : Int) (h : |n| < 2 ^ 53) :
    RoundToDouble (n : ℚ) = (n : ℚ) := by
  by_cases h0 : n = 0
  · subst h0
    simpa using RoundToDouble_zero
  · have hpos : (0 : ℚ) < |(n : ℚ)| := abs_pos.mpr (Int.cast_ne_zero.mpr h0)
    have hone : (2 : ℚ) ^ (0 : Int) ≤ |(n : ℚ)| := by
      rw [zpow_zero, ← Int.cast_abs]
      have : (1 : Int) ≤ |n| := Int.one_le_abs h0
      exact_mod_cast this
    have hlt : |(n : ℚ)| < (2 : ℚ) ^ (53 : Int) := by
      rw [← Int.cast_abs]
      have : ((|n| : Int) : ℚ) < ((2 ^ 53 : Int) : ℚ) := Int.cast_lt.mpr h
      have h53 : (((2 : Int) ^ 53 : Int) : ℚ) = (2 : ℚ) ^ (53 : Int) := by norm_num
      rw [h53] at this
      exact this
    have he0 : 0 ≤ Int.log 2 |(n : ℚ)| :=
      (Int.zpow_le_iff_le_log (by norm_num : 1 < 2) hpos).mp hone
    have he1 : Int.log 2 |(n : ℚ)| < 53 :=
      (Int.lt_zpow_iff_log_lt (by norm_num : 1 < 2) hpos).mp hlt
    unfold RoundToDouble
    apply RoundNearestEven_of_multiple 53 (-1074) (n : ℚ)
      (n * 2 ^ (52 - Int.log 2 |(n : ℚ)|).toNat) (Int.log 2 |(n : ℚ)| - 52)
    · have : ((53 : Nat) : Int) - 1 = 52 := by norm_num
      rw [this]
      omega
    · have hj : (((52 - Int.log 2 |(n : ℚ)|).toNat : Nat) : Int)
          = 52 - Int.log 2 |(n : ℚ)| := Int.toNat_of_nonneg (by omega)
      have h2 : (2 : ℚ) ≠ 0 := by norm_num
      push_cast
      rw [mul_assoc, ← zpow_natCast, hj, ← zpow_add₀ h2]
      have : 52 - Int.log 2 |(n : ℚ)| + (Int.log 2 |(n : ℚ)| - 52) = 0 := by omega
      rw [this, zpow_zero, mul_one]

end RoundingLemmas

section RoundingClaimLemmas

variable {α : Type} [LinearOrderedField α]

/-- On a window of three untagged frames with radius `1`, the reduction is three
rounded additions from `0` and one rounded division by `3`. -/
theorem AverageIntensityOverTime_three (RoundDouble : α → α) (a b c : α) :
    AverageIntensityOverTime RoundDouble 1 (ThreeFrames a b c)
      = RoundDouble
          (RoundDouble (RoundDouble (RoundDouble (0 + a) + b) + c) / 3) := by
  obtain ⟨hs, he⟩ := resolve_untagged 1 (by decide) (ThreeFrames a b c)
    (fun t _ _ => by unfold ThreeFrames; split_ifs <;> exact Or.inl rfl)
    (fun t _ _ => by unfold ThreeFrames; split_ifs <;> exact Or.inl rfl)
  have h3 : (((1 + 1 - -1 : Int) : Int) : α) = 3 := by norm_num
  simp only [AverageIntensityOverTime, hs, he, Range2_scenario, List.foldl_cons,
    List.foldl_nil, h3]
  simp [ThreeFrames, PlainFrame]

/-- The exact mean of the same window. -/
theorem mean_three (a b c : α) :
    (∑ t in Finset.Ico (CurrentSceneStartIndex 1 (ThreeFrames a b c))
          (CurrentSceneEndIndex 1 (ThreeFrames a b c)),
        (ThreeFrames a b c t).PlaneStatsAverage)
      / ((CurrentSceneEndIndex 1 (ThreeFrames a b c)
          - CurrentSceneStartIndex 1 (ThreeFrames a b c) : Int) : α)
      = (a + b + c) / 3 := by
  obtain ⟨hs, he⟩ := resolve_untagged 1 (by decide) (ThreeFrames a b c)
    (fun t _ _ => by unfold ThreeFrames; split_ifs <;> exact Or.inl rfl)
    (fun t _ _ => by unfold ThreeFrames; split_ifs <;> exact Or.inl rfl)
  have h3 : (((1 + 1 - -1 : Int) : Int) : α) = 3 := by norm_num
  rw [hs, he, ← foldl_Range2_eq_sum, Range2_scenario, h3]
  simp [ThreeFrames, PlainFrame]

/-- On the untagged window of constant value `5` with radius `1`, no partial sum
(`5, 10, 15`) is changed by the rounding to `double`. -/
theorem UntaggedWindow_sums_exact (k : Int)
    (h1 : CurrentSceneStartIndex 1 UntaggedWindow < k)
    (h2 : k ≤ CurrentSceneEndIndex 1 UntaggedWindow) :
    RoundToDouble (∑ t in Finset.Ico (CurrentSceneStartIndex 1 UntaggedWindow) k,
        (UntaggedWindow t).PlaneStatsAverage)
      = ∑ t in Finset.Ico (CurrentSceneStartIndex 1 UntaggedWindow) k,
        (UntaggedWindow t).PlaneStatsAverage := by
  have hs : CurrentSceneStartIndex 1 UntaggedWindow = -1 := by decide
  have he : CurrentSceneEndIndex 1 UntaggedWindow = 2 := by decide
  rw [hs] at h1
  rw [he] at h2
  have hv : ∀ t, (UntaggedWindow t).PlaneStatsAverage = 5 := fun _ => rfl
  have hval : ∑ t in Finset.Ico (CurrentSceneStartIndex 1 UntaggedWindow) k,
      (UntaggedWindow t).PlaneStatsAverage = ((5 * (k + 1) : Int) : ℚ) := by
    rw [hs]
    simp only [hv, Finset.sum_const, Int.card_Ico, nsmul_eq_mul]
    rw [← Int.cast_natCast, Int.toNat_of_nonneg (by omega)]
    push_cast
    ring
  rw [hval]
  have h53 : (2 : Int) ^ 53 = 9007199254740992 := by norm_num
  exact RoundToDouble_intCast _ (by rw [h53]; exact abs_lt.mpr ⟨by omega, by omega⟩)

/-- On the same window the quotient `15 / 3 = 5` is not changed either. -/
theorem UntaggedWindow_quotient_exact :
    RoundToDouble
        ((∑ t in Finset.Ico (CurrentSceneStartIndex 1 UntaggedWindow)
            (CurrentSceneEndIndex 1 UntaggedWindow),
          (UntaggedWindow t).PlaneStatsAverage)
        / ((CurrentSceneEndIndex 1 UntaggedWindow
            - CurrentSceneStartIndex 1 UntaggedWindow : Int) : ℚ))
      = (∑ t in Finset.Ico (CurrentSceneStartIndex 1 UntaggedWindow)
            (CurrentSceneEndIndex 1 UntaggedWindow),
          (UntaggedWindow t).PlaneStatsAverage)
        / ((CurrentSceneEndIndex 1 UntaggedWindow
            - CurrentSceneStartIndex 1 UntaggedWindow : Int) : ℚ) := by
  have hs : CurrentSceneStartIndex 1 UntaggedWindow = -1 := by decide
  have he : CurrentSceneEndIndex 1 UntaggedWindow = 2 := by decide
  have hv : ∀ t, (UntaggedWindow t).PlaneStatsAverage = 5 := fun _ => rfl
  have hval : (∑ t in Finset.Ico (CurrentSceneStartIndex 1 UntaggedWindow)
        (CurrentSceneEndIndex 1 UntaggedWindow), (UntaggedWindow t).PlaneStatsAverage)
      / ((CurrentSceneEndIndex 1 UntaggedWindow
          - CurrentSceneStartIndex 1 UntaggedWindow : Int) : ℚ) = ((5 : Int) : ℚ) := by
    rw [hs, he]
    simp only [hv, Finset.sum_const, Int.card_Ico, nsmul_eq_mul]
    have h3 : Int.toNat (2 - -1) = 3 := by decide
    rw [h3]
    norm_num
  rw [hval]
  exact RoundToDouble_intCast 5 (by norm_num)

end RoundingClaimLemmas

section RoundingClaims

/-- C5 fails as stated: with radius `1`, no scene tag and the `double` values
`1e16, 1, -1e16`, the accumulation in `double` loses the `1` (`1e16 + 1` is
`1e16`) and `AverageIntensityOverTime` returns `0`, while the sum divided by
`end - start` is `1/3`. -/
theorem reducer_loses_small_term :
    (RoundToDouble (10 ^ 16) = 10 ^ 16 ∧ RoundToDouble 1 = 1 ∧
      RoundToDouble (-(10 ^ 16)) = -(10 ^ 16)) ∧
    AverageIntensityOverTime RoundToDouble 1 CancellingWindow = 0 ∧
    (∑ t in Finset.Ico (CurrentSceneStartIndex 1 CancellingWindow)
          (CurrentSceneEndIndex 1 CancellingWindow),
        (CancellingWindow t).PlaneStatsAverage)
      / ((CurrentSceneEndIndex 1 CancellingWindow
          - CurrentSceneStartIndex 1 CancellingWindow : Int) : ℚ) = 1 / 3 ∧
    AverageIntensityOverTime RoundToDouble 1 CancellingWindow ≠
      (∑ t in Finset.Ico (CurrentSceneStartIndex 1 CancellingWindow)
          (CurrentSceneEndIndex 1 CancellingWindow),
        (CancellingWindow t).PlaneStatsAverage)
      / ((CurrentSceneEndIndex 1 CancellingWindow
          - CurrentSceneStartIndex 1 CancellingWindow : Int) : ℚ) := by
  have hA : AverageIntensityOverTime RoundToDouble 1 CancellingWindow = 0 := by
    unfold CancellingWindow
    rw [AverageIntensityOverTime_three, zero_add, RoundToDouble_1e16,
      RoundToDouble_1e16_add_one, add_neg_cancel, RoundToDouble_zero, zero_div,
      RoundToDouble_zero]
  have hM : (∑ t in Finset.Ico (CurrentSceneStartIndex 1 CancellingWindow)
          (CurrentSceneEndIndex 1 CancellingWindow),
        (CancellingWindow t).PlaneStatsAverage)
      / ((CurrentSceneEndIndex 1 CancellingWindow
          - CurrentSceneStartIndex 1 CancellingWindow : Int) : ℚ) = 1 / 3 := by
    unfold CancellingWindow
    rw [mean_three]
    norm_num
  refine ⟨⟨RoundToDouble_1e16, RoundToDouble_one, RoundToDouble_neg_1e16⟩, hA, hM, ?_⟩
  rw [hA, hM]
  norm_num

/-- C20 fails as stated: with radius `1`, no scene tag and every
`PlaneStatsAverage` equal to the `double` nearest to `0.1`, the accumulation in
`double` gives `0.30000000000000004` and `AverageIntensityOverTime` returns
`0.10000000000000002`, which is not the constant and lies above the maximum of
the window. -/
theorem constant_window_not_kept :
    RoundToDouble TenthDouble = TenthDouble ∧
    (∀ t, (TenthWindow t).PlaneStatsAverage = TenthDouble) ∧
    AverageIntensityOverTime RoundToDouble 1 TenthWindow = TenthMeanDouble ∧
    TenthDouble < TenthMeanDouble ∧
    ¬ (AverageIntensityOverTime RoundToDouble 1 TenthWindow
        ≤ (Finset.Icc (-1 : Int) 1).sup'
            (Finset.nonempty_Icc.mpr (by decide : (-1 : Int) ≤ 1))
            (fun t => (TenthWindow t).PlaneStatsAverage)) ∧
    ¬ (∀ c, (∀ t, -1 ≤ t → t ≤ 1 → (TenthWindow t).PlaneStatsAverage = c) →
        AverageIntensityOverTime RoundToDouble 1 TenthWindow = c) := by
  have hv : ∀ t, (TenthWindow t).PlaneStatsAverage = TenthDouble := by
    intro t
    unfold TenthWindow ThreeFrames
    split_ifs <;> rfl
  have hA : AverageIntensityOverTime RoundToDouble 1 TenthWindow = TenthMeanDouble := by
    unfold TenthWindow
    rw [AverageIntensityOverTime_three, zero_add, RoundToDouble_tenth,
      RoundToDouble_two_tenths, RoundToDouble_three_tenths, RoundToDouble_tenth_mean]
  have hlt : TenthDouble < TenthMeanDouble := by
    unfold TenthDouble TenthMeanDouble; norm_num
  refine ⟨RoundToDouble_tenth, hv, hA, hlt, ?_, ?_⟩
  · rw [hA]
    intro hle
    have hsup : (Finset.Icc (-1 : Int) 1).sup'
        (Finset.nonempty_Icc.mpr (by decide : (-1 : Int) ≤ 1))
        (fun t => (TenthWindow t).PlaneStatsAverage) ≤ TenthDouble := by
      apply Finset.sup'_le
      intro t _
      exact le_of_eq (hv t)
    exact absurd (lt_of_lt_of_le hlt (le_trans hle hsup)) (lt_irrefl _)
  · intro hall
    have := hall TenthDouble (fun t _ _ => hv t)
    rw [hA] at this
    exact absurd this (ne_of_gt hlt)

/-- C6 fails as stated: the `float` sample `16777215` times the correction `1.5`
is `25165822.5`, but `float *= double` stores `25165822`. -/
theorem stored_sample_is_rounded :
    (RoundToSingle 16777215 = 16777215 ∧ RoundToDouble (3 / 2) = 3 / 2) ∧
    (BrightMemory.Frames 0).Plane0.Pixels 0 0 = 16777215 ∧
    (ProcessedFrame (ApplyCorrections StoreSingle ((3 / 2 : ℚ), (3 / 2 : ℚ), (3 / 2 : ℚ))
        BrightMemory 0 1 2)).1.Pixels 0 0 = 25165822 ∧
    (ProcessedFrame (ApplyCorrections StoreSingle ((3 / 2 : ℚ), (3 / 2 : ℚ), (3 / 2 : ℚ))
        BrightMemory 0 1 2)).1.Pixels 0 0
      ≠ (BrightMemory.Frames 0).Plane0.Pixels 0 0 * (3 / 2) := by
  have hp : (BrightMemory.Frames 0).Plane0.Pixels 0 0 = 16777215 := rfl
  have hout : (ProcessedFrame (ApplyCorrections StoreSingle
      ((3 / 2 : ℚ), (3 / 2 : ℚ), (3 / 2 : ℚ)) BrightMemory 0 1 2)).1.Pixels 0 0
      = 25165822 := by
    obtain ⟨_, h, _⟩ := ApplyCorrections_spec StoreSingle
      ((3 / 2 : ℚ), (3 / 2 : ℚ), (3 / 2 : ℚ)) BrightMemory 0 1 2
      (by decide) (by decide) (by decide)
    have h00 := (h 0 0 (by decide) (by decide) (by decide) (by decide)).1
    rw [hp, StoreSingle_bright] at h00
    exact h00
  refine ⟨⟨RoundToSingle_bright, RoundToDouble_three_halves⟩, hp, hout, ?_⟩
  rw [hout, hp]
  norm_num

theorem reduced_is_mean_witness :
    (0 : Int) ≤ 1 ∧
      (∀ t : Int, -1 ≤ t → t ≤ 1 → (UntaggedWindow t).PlaneStatsAverage = 5) ∧
      AverageIntensityOverTime RoundToDouble 1 UntaggedWindow = 5 :=
  ⟨by decide, fun _ _ _ => rfl,
    (reduced_is_mean RoundToDouble 1 (by decide) UntaggedWindow
      UntaggedWindow_sums_exact UntaggedWindow_quotient_exact).2 5 (fun _ _ _ => rfl)⟩

end RoundingClaims

end AutoWB
